import Mathlib

/-!
Verification of the ISMCTS card-game engine (`apps/mcts-ai/src/engine`).

The Python sources are shallowly embedded: pydantic models become
structures, mutating functions become state-passing functions, raised
`EngineError`s become `Except` values, and the hidden global RNG used by
`random.shuffle` becomes an explicitly threaded stream of permutations
(position `pos`; each call to `random.shuffle` applies the permutation at
the current position and advances it).
-/

/-! ## Card model (`engine/cards.py`) -/

inductive Suit
  | clubs | diamonds | hearts | spades
deriving DecidableEq

inductive Rank
  | r2 | r3 | r4 | r5 | r6 | r7 | r8 | r9 | r10 | rJ | rQ | rK | rA
deriving DecidableEq

def SUITS : List Suit := [.clubs, .diamonds, .hearts, .spades]

def RANKS : List Rank :=
  [.r2, .r3, .r4, .r5, .r6, .r7, .r8, .r9, .r10, .rJ, .rQ, .rK, .rA]

/-- `RANK_VALUE[rank]` = index of the rank in `RANKS`. -/
def RANK_VALUE : Rank → Nat
  | .r2 => 0 | .r3 => 1 | .r4 => 2 | .r5 => 3 | .r6 => 4 | .r7 => 5
  | .r8 => 6 | .r9 => 7 | .r10 => 8 | .rJ => 9 | .rQ => 10 | .rK => 11
  | .rA => 12

def suitName : Suit → String
  | .clubs => "clubs" | .diamonds => "diamonds"
  | .hearts => "hearts" | .spades => "spades"

def rankName : Rank → String
  | .r2 => "2" | .r3 => "3" | .r4 => "4" | .r5 => "5" | .r6 => "6"
  | .r7 => "7" | .r8 => "8" | .r9 => "9" | .r10 => "10" | .rJ => "J"
  | .rQ => "Q" | .rK => "K" | .rA => "A"

structure Card where
  id : String
  suit : Suit
  rank : Rank
  deckIndex : Nat
deriving DecidableEq

def compare_rank (a b : Rank) : Int :=
  (RANK_VALUE a : Int) - (RANK_VALUE b : Int)

def create_card_id (deckIndex : Nat) (s : Suit) (r : Rank) : String :=
  "d" ++ toString deckIndex ++ ":" ++ suitName s ++ ":" ++ rankName r

/-! ## Game state (`engine/state.py`)

Fields not read by any engine operation under verification
(profiles, seeds, bids, decks, scores, phase) are omitted. -/

structure PlayerInGame where
  playerId : String
  seatIndex : Option Nat
  isBot : Bool
  spectator : Bool
deriving DecidableEq

structure ServerPlayerState where
  playerId : String
  hand : List Card
  tricksWon : Nat
  bid : Option Int
deriving DecidableEq

structure TrickPlay where
  playerId : String
  card : Card
  order : Nat
deriving DecidableEq

structure TrickState where
  trickIndex : Nat
  leaderPlayerId : String
  ledSuit : Option Suit
  plays : List TrickPlay
  winningPlayerId : Option String
  winningCardId : Option String
  completed : Bool
deriving DecidableEq

structure RoundState where
  roundIndex : Nat
  cardsPerPlayer : Nat
  trumpSuit : Option Suit
  trumpBroken : Bool
  trickInProgress : Option TrickState
  completedTricks : List TrickState
deriving DecidableEq

/-- `playerStates` is a `Dict[PlayerId, ServerPlayerState]`; Python dicts
preserve insertion order, so it is modelled as an association list. -/
structure GameState where
  gameId : String
  players : List PlayerInGame
  playerStates : List (String × ServerPlayerState)
  roundState : Option RoundState
deriving DecidableEq

/-- Python `dict[k]` / `dict.get(k)` on the association list. -/
def dictGet (d : List (String × ServerPlayerState)) (k : String) :
    Option ServerPlayerState :=
  (d.find? (fun p => decide (p.1 = k))).map (·.2)

/-- In-place overwrite of the value stored under key `k`. -/
def dictSet (d : List (String × ServerPlayerState)) (k : String)
    (v : ServerPlayerState) : List (String × ServerPlayerState) :=
  d.map (fun p => if p.1 = k then (p.1, v) else p)

/-! ## Rule kernel (`engine/rules.py`) -/

inductive ErrorCode
  | ROUND_NOT_READY | PLAYER_NOT_FOUND | CARD_NOT_IN_HAND
  | MUST_FOLLOW_SUIT | NO_ACTIVE_TRICK
deriving DecidableEq

def require_round_state (s : GameState) : Except ErrorCode RoundState :=
  match s.roundState with
  | none => .error .ROUND_NOT_READY
  | some r => .ok r

def get_active_players (s : GameState) : List String :=
  s.players.map (·.playerId)

def player_has_suit (s : GameState) (playerId : String) (suit : Suit) : Bool :=
  match dictGet s.playerStates playerId with
  | none => false
  | some ps => ps.hand.any (fun c => decide (c.suit = suit))

/-- Body of `must_follow_suit` once `require_round_state` has succeeded. -/
def must_follow_suit_core (s : GameState) (rs : RoundState) (playerId : String)
    (card : Card) : Bool :=
  match rs.trickInProgress with
  | none => false
  | some trick =>
    if trick.plays.isEmpty then false
    else
      match trick.ledSuit with
      | none => false
      | some led =>
        if card.suit = led then false
        else player_has_suit s playerId led

def must_follow_suit (s : GameState) (playerId : String) (card : Card) :
    Except ErrorCode Bool :=
  match s.roundState with
  | none => .error .ROUND_NOT_READY
  | some rs => .ok (must_follow_suit_core s rs playerId card)

def validate_play (s : GameState) (playerId : String) (card : Card) :
    Except ErrorCode Unit :=
  match dictGet s.playerStates playerId with
  | none => .error .PLAYER_NOT_FOUND
  | some ps =>
    if ps.hand.any (fun c => decide (c.id = card.id)) then
      match must_follow_suit s playerId card with
      | .error e => .error e
      | .ok true => .error .MUST_FOLLOW_SUIT
      | .ok false => .ok ()
    else .error .CARD_NOT_IN_HAND

/-- `play_card`, with the state it holds at the moment it terminates:
`(s, some e)` models a raise (the state as of the raise point), `(s, none)`
a normal return.  In the source every raise precedes every mutation, which
is exactly what claim C10 checks against this embedding. -/
def play_card_run (s : GameState) (playerId : String) (cardId : String) :
    GameState × Option ErrorCode :=
  match dictGet s.playerStates playerId with
  | none => (s, some .PLAYER_NOT_FOUND)
  | some ps =>
    match ps.hand.find? (fun c => decide (c.id = cardId)) with
    | none => (s, some .CARD_NOT_IN_HAND)
    | some card =>
      match validate_play s playerId card with
      | .error e => (s, some e)
      | .ok () =>
        match s.roundState with
        | none => (s, some .ROUND_NOT_READY)
        | some rs =>
          match rs.trickInProgress with
          | none => (s, some .NO_ACTIVE_TRICK)
          | some trick =>
            let trick1 :=
              if trick.ledSuit = none ∧ trick.plays.length = 0 then
                { trick with ledSuit := some card.suit }
              else trick
            let trick2 :=
              { trick1 with
                plays := trick1.plays ++ [⟨playerId, card, trick1.plays.length⟩] }
            let ps2 :=
              { ps with hand := ps.hand.filter (fun c => decide (c.id ≠ cardId)) }
            ({ s with
                roundState := some { rs with trickInProgress := some trick2 },
                playerStates := dictSet s.playerStates playerId ps2 },
              none)

def play_card (s : GameState) (playerId : String) (cardId : String) :
    Except ErrorCode GameState :=
  match play_card_run s playerId cardId with
  | (s1, none) => .ok s1
  | (_, some e) => .error e

/-! ## Winner determination (`rules.determine_winning_play`) -/

/-- The `(index, card)` pairs visited by `for i in range(1, len(plays))`. -/
def indexed_cards_from (n : Nat) : List TrickPlay → List (Nat × Card)
  | [] => []
  | p :: ps => (n, p.card) :: indexed_cards_from (n + 1) ps

/-- One iteration of the scan in `determine_winning_play`:
`best` is `(winning_index, winning_card)`, `ic` the current `(i, card)`. -/
def dwp_step (trump led : Option Suit) (best ic : Nat × Card) : Nat × Card :=
  if trump = some ic.2.suit ∧ ¬trump = some best.2.suit then ic
  else if trump = some ic.2.suit ∧ trump = some best.2.suit then
    (if compare_rank ic.2.rank best.2.rank > 0 then ic else best)
  else if led = some ic.2.suit then
    (if led = some best.2.suit ∧ compare_rank ic.2.rank best.2.rank > 0 then ic
     else best)
  else best

/-- Returns the index of the winning play; `none` models the
`ValueError` raised on an empty trick. -/
def determine_winning_play (trick : TrickState) (trumpSuit : Option Suit) :
    Option Nat :=
  match trick.plays with
  | [] => none
  | p0 :: rest =>
    some ((indexed_cards_from 1 rest).foldl
      (dwp_step trumpSuit trick.ledSuit) (0, p0.card)).1

/-- `rules.complete_trick`.  `.ok none` models the Python crashes that are
not `EngineError`s (`AttributeError` when no trick is in progress,
`ValueError` from `determine_winning_play`). -/
def complete_trick (s : GameState) : Except ErrorCode (Option GameState) :=
  match s.roundState with
  | none => .error .ROUND_NOT_READY
  | some rs =>
    match rs.trickInProgress with
    | none => .ok none
    | some trick =>
      match determine_winning_play trick rs.trumpSuit with
      | none => .ok none
      | some idx =>
        match trick.plays[idx]? with
        | none => .ok none
        | some wp =>
          let trick2 :=
            { trick with
              winningPlayerId := some wp.playerId,
              winningCardId := some wp.card.id,
              completed := true }
          .ok (some { s with
            roundState := some { rs with
              trickInProgress := some trick2,
              completedTricks := rs.completedTricks ++ [trick2] } })

/-! ## MCTS helpers (`engine/mcts.py`) -/

/-- Modelled from the spec: `can_lead_trump` is imported by `mcts.py` from
the rule kernel but is absent from the rules source.  Per spec §4.1 and §9
the "cannot lead trump until broken" rule is a configurable game variant
that is off by default, so the default check permits every card. -/
def can_lead_trump (_s : GameState) (_playerId : String) (_card : Card) :
    Bool :=
  true

/-- The current-player computation inlined in `get_legal_moves`.
Outer `none` models `order.index` raising `ValueError`; `some none` models
the early `return []` taken when the trick leader is falsy. -/
def glm_current_player (order : List String) (trick : TrickState) :
    Option (Option String) :=
  if trick.plays.isEmpty then
    if trick.leaderPlayerId = "" then some none
    else some (some trick.leaderPlayerId)
  else
    match order.indexOf? trick.leaderPlayerId with
    | none => none
    | some li => some order[(li + trick.plays.length) % order.length]?

/-- `get_legal_moves`; `none` models an uncaught Python exception. -/
def get_legal_moves (s : GameState) : Option (List Card) :=
  match s.roundState with
  | none => some []
  | some rs =>
    match rs.trickInProgress with
    | none => some []
    | some trick =>
      let order := get_active_players s
      match glm_current_player order trick with
      | none => none
      | some none => some []
      | some (some current) =>
        match dictGet s.playerStates current with
        | none => some []
        | some ps =>
          some (ps.hand.filter (fun c =>
            !must_follow_suit_core s rs current c && can_lead_trump s current c))

/-- `MCTS._get_active_player`.  Outer `none` models a Python crash
(`AttributeError` on a missing round, `ValueError` from `order.index`);
`some none` models `return None`. -/
def mcts_get_active_player (s : GameState) : Option (Option String) :=
  match s.roundState with
  | none => none
  | some rs =>
    match rs.trickInProgress with
    | none => some none
    | some trick =>
      if trick.plays.isEmpty then some (some trick.leaderPlayerId)
      else
        let order := get_active_players s
        match order.indexOf? trick.leaderPlayerId with
        | none => none
        | some li => some order[(li + trick.plays.length) % order.length]?

/-- `MCTS._prepare_next_trick`. -/
def prepare_next_trick (s : GameState) : GameState :=
  match s.roundState with
  | none => s
  | some rs =>
    if rs.completedTricks.length = rs.cardsPerPlayer then s
    else
      match rs.completedTricks.getLast? with
      | none => s
      | some prev =>
        let nt : TrickState :=
          { trickIndex := rs.completedTricks.length,
            leaderPlayerId := prev.winningPlayerId.getD "",
            ledSuit := none, plays := [],
            winningPlayerId := none, winningCardId := none,
            completed := false }
        { s with roundState := some { rs with trickInProgress := some nt } }

/-- `MCTS._apply_move`.  `.ok none` models a Python crash that is not an
`EngineError`; `.error e` a propagated `EngineError` from `play_card`. -/
def apply_move (s : GameState) (move : Card) :
    Except ErrorCode (Option GameState) :=
  match mcts_get_active_player s with
  | none => .ok none
  | some pidOpt =>
    let player := pidOpt.getD ""
    if player = "" then .ok (some s)
    else
      match play_card s player move.id with
      | .error e => .error e
      | .ok s1 =>
        match s1.roundState with
        | none => .ok none
        | some rs1 =>
          match rs1.trickInProgress with
          | none => .ok none
          | some trick1 =>
            if trick1.completed then
              if trick1.plays.length = s1.players.length then
                match complete_trick s1 with
                | .error e => .error e
                | .ok none => .ok none
                | .ok (some s2) =>
                  match s2.roundState with
                  | none => .ok none
                  | some rs2 =>
                    match rs2.trickInProgress with
                    | none => .ok none
                    | some t2 =>
                      let s3 :=
                        match t2.winningPlayerId with
                        | some w =>
                          if w ≠ "" then
                            match dictGet s2.playerStates w with
                            | some ps =>
                              let ps2 := { ps with tricksWon := ps.tricksWon + 1 }
                              { s2 with playerStates := dictSet s2.playerStates w ps2 }
                            | none => s2
                          else s2
                        | none => s2
                      .ok (some (prepare_next_trick s3))
              else .ok (some s1)
            else .ok (some s1)

/-! ## Stable sort

Python's `sorted` is a stable ascending sort; it is modelled by a stable
insertion sort (same permutation-and-order semantics, and it reduces in
the kernel, unlike `List.mergeSort`). -/

def stable_insert (le : α → α → Bool) (a : α) : List α → List α
  | [] => [a]
  | b :: bs => if le a b then a :: b :: bs else b :: stable_insert le a bs

def stable_sort (le : α → α → Bool) : List α → List α
  | [] => []
  | a :: as => stable_insert le a (stable_sort le as)

/-! ## Best-move selection (`MCTS._select_best_move`) -/

/-- The slice of a search-tree `Node` that the final selection reads. -/
structure ChildNode where
  move : Card
  visits : Nat
deriving DecidableEq

/-- `score` in `_select_best_move`: `(RANK_VALUE[rank], visits)`. -/
def child_sort_key (c : ChildNode) : Nat × Nat :=
  (RANK_VALUE c.move.rank, c.visits)

/-- Python tuple comparison on the sort keys (lexicographic). -/
def key_le (a b : Nat × Nat) : Bool :=
  decide (a.1 < b.1) || (decide (a.1 = b.1) && decide (a.2 ≤ b.2))

/-- `MCTS._select_best_move` (and the `search` epilogue, which returns
`None` when the root has no children): `sorted(children, key=score)[-1]`. -/
def select_best_move (children : List ChildNode) : Option Card :=
  match children with
  | [] => none
  | _ =>
    ((stable_sort (fun a b => key_le (child_sort_key a) (child_sort_key b))
        children).getLast?).map (·.move)

/-! ## Strategies (`engine/strategies.py`) -/

/-- `StrategyConfig.strategy_params` entries read by the strategies;
`none` means the key is absent and the Python-side default applies. -/
structure StrategyParams where
  alpha : Option ℚ
  beta : Option ℚ
  aggression_factor : Option ℚ
deriving DecidableEq

/-- `DefaultStrategy.evaluate`. -/
def default_evaluate (s : GameState) (playerId : String) : ℚ :=
  match dictGet s.playerStates playerId with
  | none => 0
  | some me =>
    match s.roundState with
    | none => 0
    | some r =>
      if r.cardsPerPlayer = 0 then 0
      else (me.tricksWon : ℚ) / (r.cardsPerPlayer : ℚ)

/-- Python `int(x)`: truncation toward zero. -/
def truncate_toward_zero (q : ℚ) : Int :=
  if 0 ≤ q then ⌊q⌋ else ⌈q⌉

/-- `AggressiveStrategy.evaluate`. -/
def aggressive_evaluate (s : GameState) (playerId : String)
    (params : StrategyParams) : ℚ :=
  match s.roundState with
  | none => 0
  | some r =>
    let ratio := params.aggression_factor.getD (3 / 10)
    let threshold : Int :=
      max 2 (truncate_toward_zero ((r.cardsPerPlayer : ℚ) * ratio))
    let alpha := params.alpha.getD (1 / 2)
    let beta := params.beta.getD 1
    let base_eval := default_evaluate s playerId
    let early_wins := r.completedTricks.countP (fun t =>
      decide ((t.trickIndex : Int) < threshold) &&
      decide (t.winningPlayerId = some playerId))
    let max_possible : Int := min threshold (r.cardsPerPlayer : Int)
    let norm_bonus : ℚ :=
      if max_possible = 0 then 0 else (early_wins : ℚ) / (max_possible : ℚ)
    alpha * base_eval + beta * norm_bonus

/-! ## Determinizer (`engine/determinization.py`)

`random.shuffle` draws from the module-global RNG.  That hidden state is
made explicit: `rng pos` is the permutation the global RNG would apply at
its `pos`-th shuffle call, and the position is threaded through and
returned (`determinize` returns `(state, next position, degraded?)`). -/

def generate_standard_deck : List Card :=
  (SUITS.map (fun s => RANKS.map (fun r =>
    Card.mk (create_card_id 0 s r) s r 0))).flatten

/-- `get_visible_cards`; Python returns a set of ids, only membership is
used.  A missing observer raises `KeyError` in Python; the theorems keep
the observer present. -/
def get_visible_cards (s : GameState) (observerId : String) : List String :=
  let myHand :=
    match dictGet s.playerStates observerId with
    | some ps => ps.hand.map (·.id)
    | none => []
  match s.roundState with
  | none => myHand
  | some rs =>
    myHand
      ++ (rs.completedTricks.map (fun t => t.plays.map (·.card.id))).flatten
      ++ (match rs.trickInProgress with
          | some t => t.plays.map (·.card.id)
          | none => [])

/-- `derive_constraints`: the suits a player has been seen to be void in.
Python stores the result in a dict keyed by `s.players` (raising on ids
outside it); modelled as the per-player function the dict tabulates. -/
def derive_constraints (s : GameState) (playerId : String) : List Suit :=
  match s.roundState with
  | none => []
  | some rs =>
    (rs.completedTricks.map (fun t =>
      match t.ledSuit with
      | none => []
      | some led =>
        if t.plays.any (fun p =>
            decide (p.playerId = playerId) && decide (p.card.suit ≠ led))
        then [led] else [])).flatten

/-- The per-player play count used by `determinize` (a trick counts once
if the player appears in it). -/
def plays_made (rs : RoundState) (playerId : String) : Nat :=
  rs.completedTricks.countP
      (fun t => t.plays.any (fun p => decide (p.playerId = playerId)))
    + (match rs.trickInProgress with
       | some t =>
         if t.plays.any (fun p => decide (p.playerId = playerId)) then 1 else 0
       | none => 0)

/-- `needed_counts` built over `playerStates` in insertion order. -/
def needed_counts (s : GameState) (rs : RoundState) (observerId : String) :
    List (String × Int) :=
  s.playerStates.map (fun p =>
    (p.1, if p.1 = observerId then 0
          else (rs.cardsPerPlayer : Int) - (plays_made rs p.1 : Int)))

/-- Value stored under `pid` in `needed_counts` (0 if absent). -/
def neededOf (needed : List (String × Int)) (pid : String) : Int :=
  match needed.find? (fun q => decide (q.1 = pid)) with
  | some q => q.2
  | none => 0

/-- Cards assigned to `pid` (`temp_assignments[pid]`, `[]` if absent). -/
def cardsOf (asg : List (String × List Card)) (pid : String) : List Card :=
  match asg.find? (fun q => decide (q.1 = pid)) with
  | some q => q.2
  | none => []

/-- The constrained-allocation loop of one determinization attempt:
walk `order` (most-constrained first), filter the pool by the player's
voids, fail if too few valid cards remain, otherwise take the first
`count` and remove them from the pool. -/
def allocate (constraints : String → List Suit) :
    List (String × Int) → List Card → Option (List (String × List Card))
  | [], _ => some []
  | (pid, count) :: rest, pool =>
    let valid := pool.filter (fun c => decide (c.suit ∉ constraints pid))
    if valid.length < count.toNat then none
    else
      let selected := valid.take count.toNat
      let pool2 :=
        pool.filter (fun c => decide (c.id ∉ selected.map Card.id))
      (allocate constraints rest pool2).map (fun asg => (pid, selected) :: asg)

/-- Write the assignments back: every player with a positive needed count
gets their assigned hand, everyone else is untouched. -/
def apply_assignments (s : GameState) (needed : List (String × Int))
    (asg : List (String × List Card)) : GameState :=
  { s with playerStates := s.playerStates.map (fun p =>
      if neededOf needed p.1 > 0 then
        (p.1, { p.2 with hand := cardsOf asg p.1 })
      else p) }

/-- The graceful-degradation deal: walk `needed_counts` in order and give
each needy player cards popped off the end of the pool. -/
def degraded_deal :
    List (String × Int) → List Card → List (String × List Card) × List Card
  | [], pool => ([], pool)
  | (pid, count) :: rest, pool =>
    if count > 0 then
      let taken := pool.reverse.take count.toNat
      let pool2 := pool.take (pool.length - count.toNat)
      let r := degraded_deal rest pool2
      ((pid, taken) :: r.1, r.2)
    else
      let r := degraded_deal rest pool
      ((pid, []) :: r.1, r.2)

/-- The `for attempt in range(max_retries)` loop (plus the degradation
epilogue at fuel 0).  Each attempt re-shuffles the once-shuffled unknown
pool; the returned `Bool` is true iff the degraded path was taken. -/
def determinize_attempts (rng : Nat → List Card → List Card) (s : GameState)
    (needed order : List (String × Int)) (constraints : String → List Suit)
    (unknown : List Card) : Nat → Nat → GameState × Nat × Bool
  | 0, pos =>
    let pool := rng pos unknown
    let asg := (degraded_deal needed pool).1
    (apply_assignments s needed asg, pos + 1, true)
  | fuel + 1, pos =>
    let pool := rng pos unknown
    match allocate constraints order pool with
    | some asg => (apply_assignments s needed asg, pos + 1, false)
    | none =>
      determinize_attempts rng s needed order constraints unknown fuel (pos + 1)

/-- `determinize(state, observer_id)`.  `rng`/`pos` expose the hidden
global RNG (see the section comment); the result carries the RNG position
after the call and whether constraints were abandoned (degradation). -/
def determinize (rng : Nat → List Card → List Card) (pos : Nat)
    (s : GameState) (observerId : String) : GameState × Nat × Bool :=
  match s.roundState with
  | none => (s, pos, false)
  | some rs =>
    let visible := get_visible_cards s observerId
    let unknown0 :=
      generate_standard_deck.filter (fun c => decide (c.id ∉ visible))
    let needed := needed_counts s rs observerId
    let unknown := rng pos unknown0
    let order := stable_sort
      (fun a b => decide ((derive_constraints s b.1).length ≤
                          (derive_constraints s a.1).length))
      (needed.filter (fun p => decide (p.2 > 0)))
    determinize_attempts rng s needed order (derive_constraints s)
      unknown 50 (pos + 1)

/-! ## Statement-side definitions

Helper quantities used to phrase the claims (written from the spec's
wording, to be compared with the source-translated functions above). -/

/-- Total number of plays a player has made, over completed tricks and
the current trick (the quantity named in spec invariant 3). -/
def playsTotal (rs : RoundState) (pid : String) : Nat :=
  (rs.completedTricks.map (fun t =>
    (t.plays.filter (fun p => decide (p.playerId = pid))).length)).sum
    + (match rs.trickInProgress with
       | some t => (t.plays.filter (fun p => decide (p.playerId = pid))).length
       | none => 0)

/-- Ids of every card played so far (completed tricks and current trick). -/
def playedCardIds (rs : RoundState) : List String :=
  (rs.completedTricks.map (fun t => t.plays.map (·.card.id))).flatten
    ++ (match rs.trickInProgress with
        | some t => t.plays.map (·.card.id)
        | none => [])

/-- Void suits as claim C6 words them: the led suits of completed tricks
in which the player played a card of a different suit. -/
def voids_spec (rs : RoundState) (pid : String) : List Suit :=
  rs.completedTricks.filterMap (fun t =>
    match t.ledSuit with
    | none => none
    | some led =>
      if t.plays.any (fun p =>
          decide (p.playerId = pid) && decide (p.card.suit ≠ led))
      then some led else none)

/-- The Aggressive evaluation exactly as claim C9 states it: divisor
`max 1 threshold` and a floor in the threshold. -/
def aggressive_claimed_value (s : GameState) (playerId : String)
    (params : StrategyParams) : ℚ :=
  match s.roundState with
  | none => 0
  | some r =>
    let ratio := params.aggression_factor.getD (3 / 10)
    let threshold : Int := max 2 ⌊(r.cardsPerPlayer : ℚ) * ratio⌋
    let alpha := params.alpha.getD (1 / 2)
    let beta := params.beta.getD 1
    let early : Nat := (r.completedTricks.filter (fun t =>
      decide ((t.trickIndex : Int) < threshold) &&
      decide (t.winningPlayerId = some playerId))).length
    alpha * default_evaluate s playerId +
      beta * ((early : ℚ) / ((max 1 threshold : Int) : ℚ))

/-- Claim C9 as amended: the bonus divisor is
`min threshold cards_per_player` (bonus 0 when that is 0), everything
else as the claim states it. -/
def aggressive_amended_value (s : GameState) (playerId : String)
    (params : StrategyParams) : ℚ :=
  match s.roundState with
  | none => 0
  | some r =>
    let ratio := params.aggression_factor.getD (3 / 10)
    let threshold : Int := max 2 ⌊(r.cardsPerPlayer : ℚ) * ratio⌋
    let alpha := params.alpha.getD (1 / 2)
    let beta := params.beta.getD 1
    let early : Nat := (r.completedTricks.filter (fun t =>
      decide ((t.trickIndex : Int) < threshold) &&
      decide (t.winningPlayerId = some playerId))).length
    let mp : Int := min threshold (r.cardsPerPlayer : Int)
    alpha * default_evaluate s playerId +
      beta * (if mp = 0 then 0 else (early : ℚ) / (mp : ℚ))

/-! ## Concrete fixtures (test-style states used by the witness and
counterexample theorems; card ids follow the `{SUIT}-{RANK}` fixture
format of the compliance suite) -/

def cH2 : Card := ⟨"H-2", .hearts, .r2, 0⟩
def cH3 : Card := ⟨"H-3", .hearts, .r3, 0⟩
def cH10 : Card := ⟨"H-10", .hearts, .r10, 0⟩
def cSA : Card := ⟨"S-A", .spades, .rA, 0⟩

def mkPlayer (pid : String) (i : Nat) : PlayerInGame :=
  ⟨pid, some i, false, false⟩

def mkPS (pid : String) (hand : List Card) (tricksWon : Nat) :
    ServerPlayerState :=
  ⟨pid, hand, tricksWon, none⟩

/-- A state with no players at all (for the failure witnesses). -/
def sEmpty : GameState := ⟨"g", [], [], none⟩

/-- C7 fixture: hearts led by p2; p1 holds `S-A` and the heart `H-2`. -/
def trick_c7 : TrickState := ⟨0, "p2", some .hearts, [⟨"p2", cH10, 0⟩], none, none, false⟩

def rs_c7 : RoundState := ⟨0, 10, some .spades, false, some trick_c7, []⟩

def s_c7 : GameState :=
  ⟨"g", [mkPlayer "p1" 0, mkPlayer "p2" 1],
    [("p1", mkPS "p1" [cSA, cH2] 0), ("p2", mkPS "p2" [] 0)], some rs_c7⟩

/-- C5 fixture: fresh trick led by p1; p2 holds a card but is not on
turn. -/
def trick_c5 : TrickState := ⟨0, "p1", none, [], none, none, false⟩

def rs_c5 : RoundState := ⟨0, 1, none, false, some trick_c5, []⟩

def s_c5 : GameState :=
  ⟨"g", [mkPlayer "p1" 0, mkPlayer "p2" 1],
    [("p1", mkPS "p1" [cSA] 0), ("p2", mkPS "p2" [cH2] 0)], some rs_c5⟩

/-- C1 fixture: two players, one trick per round, p1 has already played
`H-2`; p2's `H-3` will fill the trick. -/
def trick_c1 : TrickState := ⟨0, "p1", some .hearts, [⟨"p1", cH2, 0⟩], none, none, false⟩

def rs_c1 : RoundState := ⟨0, 1, none, false, some trick_c1, []⟩

def s_c1 : GameState :=
  ⟨"g", [mkPlayer "p1" 0, mkPlayer "p2" 1],
    [("p1", mkPS "p1" [] 0), ("p2", mkPS "p2" [cH3] 0)], some rs_c1⟩

/-- The state `MCTS._apply_move s_c1 cH3` actually produces: the trick now
holds both plays but is never completed. -/
def s_c1_after : GameState :=
  ⟨"g", [mkPlayer "p1" 0, mkPlayer "p2" 1],
    [("p1", mkPS "p1" [] 0), ("p2", mkPS "p2" [] 0)],
    some ⟨0, 1, none, false,
      some ⟨0, "p1", some .hearts, [⟨"p1", cH2, 0⟩, ⟨"p2", cH3, 1⟩], none, none, false⟩,
      []⟩⟩

/-- C9 counterexample fixture: one-card round whose single (early) trick
the observer won. -/
def rs_c9x : RoundState :=
  ⟨0, 1, none, false, none, [⟨0, "p1", some .hearts, [], some "p1", none, true⟩]⟩

def s_c9x : GameState :=
  ⟨"g", [mkPlayer "p1" 0], [("p1", mkPS "p1" [] 1)], some rs_c9x⟩

/-- α = 0, β = 1, aggression factor left at its 0.3 default. -/
def params_c9 : StrategyParams := ⟨some 0, some 1, none⟩

/-- Spec scenario S7: three tricks, p1 wins tricks 0 and 2, p2 wins
trick 1. -/
def rs_s7 : RoundState :=
  ⟨0, 3, none, false, none,
    [⟨0, "p1", none, [], some "p1", none, true⟩,
     ⟨1, "p2", none, [], some "p2", none, true⟩,
     ⟨2, "p1", none, [], some "p1", none, true⟩]⟩

def s_s7 : GameState :=
  ⟨"g", [mkPlayer "p1" 0, mkPlayer "p2" 1],
    [("p1", mkPS "p1" [] 2), ("p2", mkPS "p2" [] 1)], some rs_s7⟩

/-- C8 fixture: two explored root children. -/
def children_c8 : List ChildNode := [⟨cH2, 5⟩, ⟨cSA, 3⟩]

/-- C4 witness fixture: spades trump; the spade `S-2` beats both hearts
(spec scenario S5, shortened). -/
def trick_c4 : TrickState :=
  ⟨0, "p1", some .hearts,
    [⟨"p1", cH10, 0⟩, ⟨"p2", ⟨"S-2", .spades, .r2, 0⟩, 1⟩, ⟨"p3", ⟨"H-K", .hearts, .rK, 0⟩, 2⟩],
    none, none, false⟩

/-- Determinization fixture: observer p1 holds the deck card `d0:clubs:2`,
opponent p2 needs exactly one card. -/
def d0c2 : Card := ⟨create_card_id 0 .clubs .r2, .clubs, .r2, 0⟩

def trick_det : TrickState := ⟨0, "p1", none, [], none, none, false⟩

def rs_det : RoundState := ⟨0, 1, none, false, some trick_det, []⟩

def s_det : GameState :=
  ⟨"g", [mkPlayer "p1" 0, mkPlayer "p2" 1],
    [("p1", mkPS "p1" [d0c2] 0), ("p2", mkPS "p2" [] 0)], some rs_det⟩

/-- A global RNG whose shuffles all leave the list unchanged. -/
def idRng : Nat → List Card → List Card := fun _ l => l

/-- A global RNG that reverses the list at its second shuffle call
(position 1) and leaves it unchanged elsewhere. -/
def exRng : Nat → List Card → List Card :=
  fun i l => if i = 1 then l.reverse else l

/-! ## Helper lemmas -/

/-- `max 2 ·` erases the difference between Python `int()` truncation and
the floor: they agree on nonnegative arguments, and both fall below 2 on
negative ones. -/
theorem max_two_truncate_eq_floor (q : ℚ) :
    max 2 (truncate_toward_zero q) = max 2 ⌊q⌋ := by
  unfold truncate_toward_zero
  split
  · rfl
  · rename_i h
    have hq : q < 0 := lt_of_not_ge h
    have h1 : ⌈q⌉ ≤ 0 := Int.ceil_le.mpr (by exact_mod_cast hq.le)
    have h2 : ⌊q⌋ ≤ ⌈q⌉ := Int.floor_le_ceil q
    rw [max_eq_left (by omega), max_eq_left (by omega)]

/-! ## Claim C10 -/

/-- C10: `play_card` is atomic on failure — whenever it raises any engine
error, the state at the moment of the raise is the unmodified input state
(every validation precedes every mutation). -/
theorem C10_play_card_atomic_on_failure (s : GameState) (pid cid : String)
    (e : ErrorCode) :
    (play_card_run s pid cid).2 = some e → (play_card_run s pid cid).1 = s := by
  unfold play_card_run
  repeat' split
  all_goals intro h
  all_goals first | rfl | exact Option.noConfusion h

/-- Witness for C10: a concrete failing `play_card` (unknown player) whose
resulting state is untouched. -/
theorem C10_witness :
    (play_card_run sEmpty "p1" "x").2 = some .PLAYER_NOT_FOUND ∧
    (play_card_run sEmpty "p1" "x").1 = sEmpty :=
  ⟨by decide,
   C10_play_card_atomic_on_failure sEmpty "p1" "x" .PLAYER_NOT_FOUND (by decide)⟩

/-! ## Claim C1 -/

/-- C1 (code defect): evaluating `MCTS._apply_move` at a state where the
played card fills the trick (`|plays| = |players| = 2`).  The guard
`if state.roundState.trickInProgress.completed:` is tested right after
`play_card`, which never sets `completed`, so the completion block —
`complete_trick`, the `tricks_won` increment and the fresh-trick
construction — is unreachable: the trick stays uncompleted, nothing is
appended to `completed_tricks`, and no `tricks_won` changes. -/
theorem C1_full_trick_not_completed :
    apply_move s_c1 cH3 = .ok (some s_c1_after) ∧
    (s_c1_after.roundState.map (·.completedTricks)) = some [] ∧
    ((s_c1_after.roundState.bind (·.trickInProgress)).map (·.completed)) =
      some false ∧
    ((s_c1_after.roundState.bind (·.trickInProgress)).map (·.plays.length)) =
      some s_c1.players.length ∧
    (dictGet s_c1_after.playerStates "p1").map (·.tricksWon) = some 0 ∧
    (dictGet s_c1_after.playerStates "p2").map (·.tricksWon) = some 0 :=
  ⟨rfl, by decide, by decide, by decide, by decide, by decide⟩

/-! ## Claim C3 -/

set_option maxRecDepth 10000 in
/-- C3 counterexample: `determinize` draws from the module-global RNG
(`random.shuffle`), which advances between calls; two successive calls
with identical state, observer and initial seed position return different
states, refuting per-call reproducibility as claimed. -/
theorem C3_counterexample :
    (determinize exRng 0 s_det "p1").1 ≠
      (determinize exRng (determinize exRng 0 s_det "p1").2.1 s_det "p1").1 := by
  decide

/-- C3 amended: `determinize` is deterministic only relative to the global
RNG state it implicitly consumes — two calls whose (identical) inputs
include the same global shuffle stream and stream position return
identical results; the RNG is not an injected parameter. -/
theorem C3_amended_reproducible (rng1 rng2 : Nat → List Card → List Card)
    (pos : Nat) (s : GameState) (obs : String)
    (h : ∀ i l, rng1 i l = rng2 i l) :
    determinize rng1 pos s obs = determinize rng2 pos s obs := by
  have hfun : rng1 = rng2 := funext fun i => funext fun l => h i l
  rw [hfun]

/-- Witness for C3 (amended): two calls over the identity shuffle stream
agree. -/
theorem C3_witness :
    determinize idRng 0 s_det "p1" =
      determinize (fun i l => idRng i l) 0 s_det "p1" :=
  C3_amended_reproducible idRng (fun i l => idRng i l) 0 s_det "p1"
    (fun _ _ => rfl)

/-! ## Claim C9 -/

/-- C9 counterexample: with `cards_per_player = 1`, one completed (early)
trick won by the observer, α = 0, β = 1: the code divides the early-win
bonus by `min(threshold, cards_per_player) = 1` and evaluates to 1, while
the claimed formula divides by `max(1, threshold) = 2` and yields 1/2. -/
theorem C9_counterexample :
    aggressive_evaluate s_c9x "p1" params_c9 = 1 ∧
    aggressive_claimed_value s_c9x "p1" params_c9 = 1 / 2 ∧
    aggressive_evaluate s_c9x "p1" params_c9 ≠
      aggressive_claimed_value s_c9x "p1" params_c9 := by
  refine ⟨?_, ?_, ?_⟩ <;>
    norm_num [aggressive_evaluate, aggressive_claimed_value, default_evaluate,
      truncate_toward_zero, s_c9x, rs_c9x, params_c9, dictGet, mkPS]

/-- C9 amended: the Aggressive strategy evaluates to
`α · default + β · (early_wins / min(threshold, cards_per_player))`
(bonus 0 when the divisor is 0), with
`threshold = max(2, floor(cards_per_player · aggression_factor))` and
`early_wins` counting completed tricks with `trick_index < threshold` won
by the observer; in particular the claim's concrete instance (S7:
`cards_per_player = 3`, factor 0.3, α = 0, β = 1, observer wins tricks 0
and 2) evaluates to 0.5. -/
theorem C9_amended_aggressive_value :
    (∀ (s : GameState) (pid : String) (params : StrategyParams),
      aggressive_evaluate s pid params = aggressive_amended_value s pid params) ∧
    aggressive_evaluate s_s7 "p1" params_c9 = 1 / 2 := by
  constructor
  · intro s pid params
    unfold aggressive_evaluate aggressive_amended_value
    cases hrs : s.roundState with
    | none => rfl
    | some r =>
      simp only [max_two_truncate_eq_floor, List.countP_eq_length_filter]
  · norm_num [aggressive_evaluate, default_evaluate, truncate_toward_zero,
      s_s7, rs_s7, params_c9, dictGet, mkPS, List.countP_cons, List.countP_nil,
      List.find?]
    rw [if_neg (by decide)]
    norm_num

/-! ## Claims C7 and C5 -/

/-- Characterization of `must_follow_suit_core` in terms of the trick and
the player's hand. -/
theorem mfs_core_eq_true_iff (s : GameState) (rs : RoundState) (pid : String)
    (c : Card) (ps : ServerPlayerState) (trick : TrickState)
    (hps : dictGet s.playerStates pid = some ps)
    (htrick : rs.trickInProgress = some trick) :
    (must_follow_suit_core s rs pid c = true ↔
      (trick.plays ≠ [] ∧ ∃ led, trick.ledSuit = some led ∧ c.suit ≠ led ∧
        ∃ c2 ∈ ps.hand, c2.suit = led)) := by
  unfold must_follow_suit_core player_has_suit
  rw [htrick, hps]
  cases hpl : trick.plays with
  | nil => simp [hpl]
  | cons p0 prest =>
    cases hled : trick.ledSuit with
    | none => simp [hpl, hled]
    | some led0 =>
      by_cases hcs : c.suit = led0
      · simp [hpl, hled, hcs]
      · simp [hpl, hled, hcs, List.any_eq_true]

/-- Reduction of `play_card` once player and card are resolved: whether it
raises `MUST_FOLLOW_SUIT` or succeeds is decided by
`must_follow_suit_core`. -/
theorem play_card_cases (s : GameState) (pid cid : String)
    (ps : ServerPlayerState) (c : Card) (rs : RoundState) (trick : TrickState)
    (hps : dictGet s.playerStates pid = some ps)
    (hc : ps.hand.find? (fun x => decide (x.id = cid)) = some c)
    (hrs : s.roundState = some rs)
    (htrick : rs.trickInProgress = some trick) :
    (must_follow_suit_core s rs pid c = true →
      play_card s pid cid = .error .MUST_FOLLOW_SUIT) ∧
    (must_follow_suit_core s rs pid c = false →
      ∃ s2, play_card s pid cid = .ok s2) := by
  have hmem : c ∈ ps.hand := List.mem_of_find?_eq_some hc
  have hany : ps.hand.any (fun x => decide (x.id = c.id)) = true := by
    rw [List.any_eq_true]
    exact ⟨c, hmem, by simp⟩
  constructor
  · intro hm
    unfold play_card play_card_run validate_play must_follow_suit
    simp only [hps, hc, hrs, htrick, hany, hm, if_true]
  · intro hm
    unfold play_card play_card_run validate_play must_follow_suit
    simp only [hps, hc, hrs, htrick, hany, hm, if_true]
    exact ⟨_, rfl⟩

/-- C7: `play_card` raises `MUST_FOLLOW_SUIT` exactly when the current
trick has at least one play and a led suit, the played card's suit differs
from it, and the player still holds a led-suit card; when the player holds
no led-suit card the off-suit play is permitted (play_card succeeds). -/
theorem C7_must_follow_suit_iff (s : GameState) (pid cid : String)
    (ps : ServerPlayerState) (c : Card) (rs : RoundState) (trick : TrickState)
    (hps : dictGet s.playerStates pid = some ps)
    (hc : ps.hand.find? (fun x => decide (x.id = cid)) = some c)
    (hrs : s.roundState = some rs)
    (htrick : rs.trickInProgress = some trick) :
    (play_card s pid cid = .error .MUST_FOLLOW_SUIT ↔
      (trick.plays ≠ [] ∧ ∃ led, trick.ledSuit = some led ∧ c.suit ≠ led ∧
        ∃ c2 ∈ ps.hand, c2.suit = led)) ∧
    ((∀ c2 ∈ ps.hand, ∀ led, trick.ledSuit = some led → c2.suit ≠ led) →
      ∃ s2, play_card s pid cid = .ok s2) := by
  obtain ⟨h1, h2⟩ := play_card_cases s pid cid ps c rs trick hps hc hrs htrick
  have hiff := mfs_core_eq_true_iff s rs pid c ps trick hps htrick
  constructor
  · constructor
    · intro he
      cases hm : must_follow_suit_core s rs pid c with
      | false =>
        obtain ⟨s2, hs2⟩ := h2 hm
        rw [hs2] at he
        exact Except.noConfusion he
      | true => exact hiff.mp hm
    · intro hcond
      exact h1 (hiff.mpr hcond)
  · intro hno
    apply h2
    cases hm : must_follow_suit_core s rs pid c with
    | false => rfl
    | true =>
      exfalso
      obtain ⟨-, led, hled, -, c2, hc2mem, hc2suit⟩ := hiff.mp hm
      exact hno c2 hc2mem led hled hc2suit

/-- Witness for C7: p1 must follow hearts but plays the spade ace. -/
theorem C7_witness :
    play_card s_c7 "p1" "S-A" = .error .MUST_FOLLOW_SUIT :=
  (C7_must_follow_suit_iff s_c7 "p1" "S-A" (mkPS "p1" [cSA, cH2] 0) cSA rs_c7
      trick_c7 (by decide) (by decide) rfl rfl).1.mpr
    ⟨by decide, .hearts, rfl, by decide, cH2, by decide, rfl⟩

/-- Success of `play_card` yields the resolved player state, the resolved
card, and a false `must_follow_suit_core`. -/
theorem play_card_ok_parts (s : GameState) (pid cid : String) (s2 : GameState)
    (rs : RoundState) (hrs : s.roundState = some rs)
    (hok : play_card s pid cid = .ok s2) :
    ∃ ps c, dictGet s.playerStates pid = some ps ∧
      ps.hand.find? (fun x => decide (x.id = cid)) = some c ∧
      must_follow_suit_core s rs pid c = false := by
  unfold play_card play_card_run validate_play must_follow_suit at hok
  rw [hrs] at hok
  cases hps : dictGet s.playerStates pid with
  | none =>
    simp only [hps] at hok
    exact Except.noConfusion hok
  | some ps =>
    simp only [hps] at hok
    cases hc : ps.hand.find? (fun x => decide (x.id = cid)) with
    | none =>
      simp only [hc] at hok
      exact Except.noConfusion hok
    | some c =>
      simp only [hc] at hok
      refine ⟨ps, c, rfl, hc, ?_⟩
      cases hany : ps.hand.any (fun x => decide (x.id = c.id)) with
      | false =>
        simp only [hany, Bool.false_eq_true, if_false] at hok
        exact Except.noConfusion hok
      | true =>
        simp only [hany, if_true] at hok
        cases hm : must_follow_suit_core s rs pid c with
        | false => rfl
        | true =>
          simp only [hm] at hok
          exact Except.noConfusion hok

/-- C5 counterexample: `play_card` performs no turn check, so a player who
is not on turn can successfully play a card that the legal-move list (which
is computed for the player on turn) does not contain. -/
theorem C5_counterexample :
    (play_card_run s_c5 "p2" cH2.id).2 = none ∧
    get_legal_moves s_c5 = some [cSA] ∧
    ∀ cd ∈ [cSA], cd.id ≠ cH2.id :=
  ⟨by decide, by decide, by decide⟩

/-- C5 amended: if `p` is the player on turn (the current player the
legal-move routine computes) and `play_card` on a clone succeeds, then the
legal-move list contains a card with the played id. -/
theorem C5_amended_legal_moves (s : GameState) (pid cid : String)
    (rs : RoundState) (trick : TrickState) (s2 : GameState)
    (hrs : s.roundState = some rs)
    (htrick : rs.trickInProgress = some trick)
    (hcur : glm_current_player (get_active_players s) trick = some (some pid))
    (hok : play_card s pid cid = .ok s2) :
    ∃ legal, get_legal_moves s = some legal ∧ ∃ c ∈ legal, c.id = cid := by
  obtain ⟨ps, c, hps, hc, hcore⟩ := play_card_ok_parts s pid cid s2 rs hrs hok
  have hcid : c.id = cid := by simpa using List.find?_some hc
  have hmem : c ∈ ps.hand := List.mem_of_find?_eq_some hc
  refine ⟨ps.hand.filter (fun x =>
      !must_follow_suit_core s rs pid x && can_lead_trump s pid x), ?_,
    c, ?_, hcid⟩
  · unfold get_legal_moves
    simp only [hrs, htrick, hcur, hps]
  · rw [List.mem_filter]
    refine ⟨hmem, ?_⟩
    rw [hcore]
    rfl

/-- Witness for C5 (amended): the player on turn plays the spade ace from
an empty trick; the legal-move list contains it. -/
theorem C5_witness :
    ∃ legal, get_legal_moves s_c5 = some legal ∧ ∃ c ∈ legal, c.id = "S-A" :=
  C5_amended_legal_moves s_c5 "p1" "S-A" rs_c5 trick_c5
    ⟨"g", [mkPlayer "p1" 0, mkPlayer "p2" 1],
      [("p1", ⟨"p1", [], 0, none⟩), ("p2", ⟨"p2", [cH2], 0, none⟩)],
      some ⟨0, 1, none, false,
        some ⟨0, "p1", some .spades, [⟨"p1", cSA, 0⟩], none, none, false⟩, []⟩⟩
    rfl rfl rfl rfl

/-! ## Claim C8 -/

theorem stable_insert_perm (le : α → α → Bool) (a : α) (l : List α) :
    (stable_insert le a l).Perm (a :: l) := by
  induction l with
  | nil => exact List.Perm.refl _
  | cons b bs ih =>
    unfold stable_insert
    split
    · exact List.Perm.refl _
    · exact (ih.cons b).trans (List.Perm.swap a b bs)

theorem stable_sort_perm (le : α → α → Bool) (l : List α) :
    (stable_sort le l).Perm l := by
  induction l with
  | nil => exact List.Perm.refl _
  | cons a as ih => exact (stable_insert_perm le a _).trans (ih.cons a)

theorem pairwise_stable_insert (le : α → α → Bool)
    (htrans : ∀ x y z, le x y = true → le y z = true → le x z = true)
    (htot : ∀ x y, le x y = true ∨ le y x = true)
    (a : α) (l : List α)
    (hl : l.Pairwise (fun x y => le x y = true)) :
    (stable_insert le a l).Pairwise (fun x y => le x y = true) := by
  induction l with
  | nil => simp [stable_insert]
  | cons b bs ih =>
    rw [List.pairwise_cons] at hl
    obtain ⟨hb, hbs⟩ := hl
    unfold stable_insert
    split
    · rename_i hab
      rw [List.pairwise_cons]
      refine ⟨?_, List.pairwise_cons.mpr ⟨hb, hbs⟩⟩
      intro x hx
      rcases List.mem_cons.mp hx with rfl | hx2
      · exact hab
      · exact htrans a b x hab (hb x hx2)
    · rename_i hab
      have hba : le b a = true := by
        rcases htot a b with h | h
        · exact absurd h hab
        · exact h
      rw [List.pairwise_cons]
      refine ⟨?_, ih hbs⟩
      intro x hx
      have hx2 := (stable_insert_perm le a bs).mem_iff.mp hx
      rcases List.mem_cons.mp hx2 with rfl | hx3
      · exact hba
      · exact hb x hx3

theorem pairwise_stable_sort (le : α → α → Bool)
    (htrans : ∀ x y z, le x y = true → le y z = true → le x z = true)
    (htot : ∀ x y, le x y = true ∨ le y x = true) (l : List α) :
    (stable_sort le l).Pairwise (fun x y => le x y = true) := by
  induction l with
  | nil => simp [stable_sort]
  | cons a as ih => exact pairwise_stable_insert le htrans htot a _ ih

theorem mem_of_getLast?_eq (l : List α) (m : α) (h : l.getLast? = some m) :
    m ∈ l := by
  induction l with
  | nil => exact Option.noConfusion h
  | cons a as ih =>
    cases as with
    | nil =>
      obtain rfl : a = m := by simpa using h
      exact List.mem_cons_self a []
    | cons b bs =>
      rw [List.getLast?_cons_cons] at h
      exact List.mem_cons_of_mem a (ih h)

theorem pairwise_le_getLast (le : α → α → Bool) (l : List α) (m : α)
    (hp : l.Pairwise (fun x y => le x y = true))
    (hm : l.getLast? = some m) (x : α) (hx : x ∈ l) :
    x = m ∨ le x m = true := by
  induction l with
  | nil => cases hx
  | cons a as ih =>
    rw [List.pairwise_cons] at hp
    obtain ⟨ha, has⟩ := hp
    cases as with
    | nil =>
      obtain rfl : a = m := by simpa using hm
      rcases List.mem_singleton.mp hx with rfl
      exact Or.inl rfl
    | cons b bs =>
      rw [List.getLast?_cons_cons] at hm
      rcases List.mem_cons.mp hx with rfl | hx2
      · exact Or.inr (ha m (mem_of_getLast?_eq _ m hm))
      · exact ih has hm hx2

theorem key_le_iff (a b : Nat × Nat) :
    key_le a b = true ↔ (a.1 < b.1 ∨ (a.1 = b.1 ∧ a.2 ≤ b.2)) := by
  unfold key_le
  simp [Bool.or_eq_true, Bool.and_eq_true, decide_eq_true_eq]

theorem key_le_trans (x y z : Nat × Nat) (h1 : key_le x y = true)
    (h2 : key_le y z = true) : key_le x z = true := by
  rw [key_le_iff] at *
  omega

theorem key_le_total (x y : Nat × Nat) :
    key_le x y = true ∨ key_le y x = true := by
  rw [key_le_iff, key_le_iff]
  omega

/-- C8: when the root has at least one child, the returned move is that of
a child maximizing the lexicographic key `(RANK_VALUE(move.rank), visits)`
(every child's key is `≤` the selected child's); with no children the
selection returns nothing. -/
theorem C8_best_move_selection (children : List ChildNode) :
    (children = [] → select_best_move children = none) ∧
    (children ≠ [] →
      ∃ ch ∈ children, select_best_move children = some ch.move ∧
        ∀ c ∈ children, key_le (child_sort_key c) (child_sort_key ch) = true) := by
  constructor
  · intro h
    subst h
    rfl
  · intro hne
    have hperm := stable_sort_perm
      (fun a b => key_le (child_sort_key a) (child_sort_key b)) children
    have hsorted := pairwise_stable_sort
      (fun a b => key_le (child_sort_key a) (child_sort_key b))
      (fun x y z hxy hyz => key_le_trans _ _ _ hxy hyz)
      (fun x y => key_le_total _ _) children
    cases hlast : (stable_sort
        (fun a b => key_le (child_sort_key a) (child_sort_key b))
        children).getLast? with
    | none =>
      exfalso
      have hnil : stable_sort
          (fun a b => key_le (child_sort_key a) (child_sort_key b))
          children = [] := by
        cases hs : stable_sort
            (fun a b => key_le (child_sort_key a) (child_sort_key b))
            children with
        | nil => rfl
        | cons x xs =>
          rw [hs] at hlast
          rw [List.getLast?_eq_getLast _ (by simp)] at hlast
          exact Option.noConfusion hlast
      exact hne (List.Perm.eq_nil (hnil ▸ hperm).symm)
    | some m =>
      refine ⟨m, hperm.mem_iff.mp (mem_of_getLast?_eq _ m hlast), ?_, ?_⟩
      · cases children with
        | nil => exact absurd rfl hne
        | cons a as =>
          unfold select_best_move
          rw [hlast]
          rfl
      · intro c hc
        have hcs := hperm.mem_iff.mpr hc
        rcases pairwise_le_getLast _ _ m hsorted hlast c hcs with rfl | h
        · rw [key_le_iff]
          omega
        · exact h

/-- Witness for C8: among two explored children the spade ace (higher
rank) is selected. -/
theorem C8_witness :
    children_c8 ≠ [] ∧
    ∃ ch ∈ children_c8, select_best_move children_c8 = some ch.move ∧
      ∀ c ∈ children_c8, key_le (child_sort_key c) (child_sort_key ch) = true :=
  ⟨by decide, (C8_best_move_selection children_c8).2 (by decide)⟩

/-! ## Claim C4 -/

theorem compare_rank_pos_iff (a b : Rank) :
    compare_rank a b > 0 ↔ RANK_VALUE b < RANK_VALUE a := by
  unfold compare_rank
  omega

theorem dwp_step_eq_or (trump led : Option Suit) (best ic : Nat × Card) :
    dwp_step trump led best ic = best ∨ dwp_step trump led best ic = ic := by
  unfold dwp_step
  repeat' split
  all_goals first | exact Or.inl rfl | exact Or.inr rfl

theorem foldl_dwp_mem (trump led : Option Suit) (l : List (Nat × Card)) :
    ∀ best : Nat × Card,
      l.foldl (dwp_step trump led) best = best ∨
      l.foldl (dwp_step trump led) best ∈ l := by
  induction l with
  | nil => intro best; exact Or.inl rfl
  | cons x xs ih =>
    intro best
    rw [List.foldl_cons]
    rcases ih (dwp_step trump led best x) with h | h
    · rw [h]
      rcases dwp_step_eq_or trump led best x with h2 | h2
      · exact Or.inl h2
      · rw [h2]
        exact Or.inr (List.mem_cons_self x xs)
    · exact Or.inr (List.mem_cons_of_mem x h)

theorem indexed_cards_from_map_snd (l : List TrickPlay) :
    ∀ n : Nat, (indexed_cards_from n l).map Prod.snd = l.map (·.card) := by
  induction l with
  | nil => intro n; rfl
  | cons p ps ih => intro n; simp [indexed_cards_from, ih]

theorem indexed_cards_from_lookup (l : List TrickPlay) :
    ∀ (n i : Nat) (c : Card), (i, c) ∈ indexed_cards_from n l →
      n ≤ i ∧ ∃ p, l[i - n]? = some p ∧ p.card = c := by
  induction l with
  | nil => intro n i c h; cases h
  | cons p ps ih =>
    intro n i c h
    unfold indexed_cards_from at h
    rcases List.mem_cons.mp h with heq | h2
    · have h1 : i = n := congrArg Prod.fst heq
      have h2 : c = p.card := congrArg Prod.snd heq
      subst h1
      subst h2
      refine ⟨le_refl _, p, ?_, rfl⟩
      simp
    · obtain ⟨hn, q, hq, hqc⟩ := ih (n + 1) i c h2
      refine ⟨by omega, q, ?_, hqc⟩
      have hstep : i - n = (i - (n + 1)) + 1 := by omega
      rw [hstep]
      simpa using hq

theorem dwp_step_invariant (trump led : Option Suit) (best ic : Nat × Card)
    (seen : List Card)
    (hmem : best.2 ∈ seen)
    (hT : (∃ c ∈ seen, trump = some c.suit) →
      trump = some best.2.suit ∧
      ∀ c ∈ seen, trump = some c.suit →
        RANK_VALUE c.rank ≤ RANK_VALUE best.2.rank)
    (hL : (¬∃ c ∈ seen, trump = some c.suit) →
      led = some best.2.suit ∧
      ∀ c ∈ seen, led = some c.suit →
        RANK_VALUE c.rank ≤ RANK_VALUE best.2.rank) :
    ((dwp_step trump led best ic).2 ∈ seen ++ [ic.2]) ∧
    ((∃ c ∈ seen ++ [ic.2], trump = some c.suit) →
      trump = some (dwp_step trump led best ic).2.suit ∧
      ∀ c ∈ seen ++ [ic.2], trump = some c.suit →
        RANK_VALUE c.rank ≤ RANK_VALUE (dwp_step trump led best ic).2.rank) ∧
    ((¬∃ c ∈ seen ++ [ic.2], trump = some c.suit) →
      led = some (dwp_step trump led best ic).2.suit ∧
      ∀ c ∈ seen ++ [ic.2], led = some c.suit →
        RANK_VALUE c.rank ≤ RANK_VALUE (dwp_step trump led best ic).2.rank) := by
  have hmem2 : best.2 ∈ seen ++ [ic.2] := List.mem_append_left _ hmem
  have hicmem : ic.2 ∈ seen ++ [ic.2] :=
    List.mem_append_right _ (List.mem_singleton.mpr rfl)
  by_cases htc : trump = some ic.2.suit
  · by_cases htb : trump = some best.2.suit
    · by_cases hcmp : compare_rank ic.2.rank best.2.rank > 0
      · have hval : dwp_step trump led best ic = ic := by
          unfold dwp_step
          rw [if_neg (fun h => h.2 htb), if_pos ⟨htc, htb⟩, if_pos hcmp]
        rw [hval]
        have hbound := (hT ⟨best.2, hmem, htb⟩).2
        refine ⟨hicmem, ?_, ?_⟩
        · intro _
          refine ⟨htc, ?_⟩
          intro c hc hct
          rcases List.mem_append.mp hc with hc1 | hc2
          · have h1 := hbound c hc1 hct
            have h2 := compare_rank_pos_iff _ _ |>.mp hcmp
            omega
          · rcases List.mem_singleton.mp hc2 with rfl
            exact le_refl _
        · intro hno
          exact absurd ⟨ic.2, hicmem, htc⟩ hno
      · have hval : dwp_step trump led best ic = best := by
          unfold dwp_step
          rw [if_neg (fun h => h.2 htb), if_pos ⟨htc, htb⟩, if_neg hcmp]
        rw [hval]
        have hbound := (hT ⟨best.2, hmem, htb⟩).2
        refine ⟨hmem2, ?_, ?_⟩
        · intro _
          refine ⟨htb, ?_⟩
          intro c hc hct
          rcases List.mem_append.mp hc with hc1 | hc2
          · exact hbound c hc1 hct
          · rcases List.mem_singleton.mp hc2 with rfl
            have := (compare_rank_pos_iff ic.2.rank best.2.rank).not.mp hcmp
            omega
        · intro hno
          exact absurd ⟨ic.2, hicmem, htc⟩ hno
    · have hval : dwp_step trump led best ic = ic := by
        unfold dwp_step
        rw [if_pos ⟨htc, htb⟩]
      rw [hval]
      have hnoseen : ¬∃ c ∈ seen, trump = some c.suit := by
        intro hex
        exact htb (hT hex).1
      refine ⟨hicmem, ?_, ?_⟩
      · intro _
        refine ⟨htc, ?_⟩
        intro c hc hct
        rcases List.mem_append.mp hc with hc1 | hc2
        · exact absurd ⟨c, hc1, hct⟩ hnoseen
        · rcases List.mem_singleton.mp hc2 with rfl
          exact le_refl _
      · intro hno
        exact absurd ⟨ic.2, hicmem, htc⟩ hno
  · have hnotfirst : ¬(trump = some ic.2.suit ∧ ¬trump = some best.2.suit) := by
      tauto
    have hnotsecond : ¬(trump = some ic.2.suit ∧ trump = some best.2.suit) := by
      tauto
    by_cases hlc : led = some ic.2.suit
    · by_cases hlbc : led = some best.2.suit ∧
          compare_rank ic.2.rank best.2.rank > 0
      · have hval : dwp_step trump led best ic = ic := by
          simp only [dwp_step, if_neg hnotfirst, if_neg hnotsecond,
            if_pos hlc, if_pos hlbc]
        rw [hval]
        refine ⟨hicmem, ?_, ?_⟩
        · intro hex
          exfalso
          rcases hex with ⟨c, hc, hct⟩
          rcases List.mem_append.mp hc with hc1 | hc2
          · have htb := (hT ⟨c, hc1, hct⟩).1
            have : best.2.suit = ic.2.suit := by
              have h1 := hlbc.1
              rw [hlc] at h1
              exact (Option.some.inj h1).symm
            rw [this] at htb
            exact htc htb
          · rcases List.mem_singleton.mp hc2 with rfl
            exact htc hct
        · intro hno
          have hnoseen : ¬∃ c ∈ seen, trump = some c.suit := by
            intro ⟨c, hc, hct⟩
            exact hno ⟨c, List.mem_append_left _ hc, hct⟩
          have hbound := (hL hnoseen).2
          refine ⟨hlc, ?_⟩
          intro c hc hcl
          rcases List.mem_append.mp hc with hc1 | hc2
          · have h1 := hbound c hc1 hcl
            have h2 := compare_rank_pos_iff _ _ |>.mp hlbc.2
            omega
          · rcases List.mem_singleton.mp hc2 with rfl
            exact le_refl _
      · have hval : dwp_step trump led best ic = best := by
          simp only [dwp_step, if_neg hnotfirst, if_neg hnotsecond,
            if_pos hlc, if_neg hlbc]
        rw [hval]
        refine ⟨hmem2, ?_, ?_⟩
        · intro hex
          have hexseen : ∃ c ∈ seen, trump = some c.suit := by
            rcases hex with ⟨c, hc, hct⟩
            rcases List.mem_append.mp hc with hc1 | hc2
            · exact ⟨c, hc1, hct⟩
            · rcases List.mem_singleton.mp hc2 with rfl
              exact absurd hct htc
          refine ⟨(hT hexseen).1, ?_⟩
          intro c hc hct
          rcases List.mem_append.mp hc with hc1 | hc2
          · exact (hT hexseen).2 c hc1 hct
          · rcases List.mem_singleton.mp hc2 with rfl
            exact absurd hct htc
        · intro hno
          have hnoseen : ¬∃ c ∈ seen, trump = some c.suit := by
            intro ⟨c, hc, hct⟩
            exact hno ⟨c, List.mem_append_left _ hc, hct⟩
          obtain ⟨hlb, hbound⟩ := hL hnoseen
          refine ⟨hlb, ?_⟩
          intro c hc hcl
          rcases List.mem_append.mp hc with hc1 | hc2
          · exact hbound c hc1 hcl
          · rcases List.mem_singleton.mp hc2 with rfl
            have hncmp : ¬compare_rank ic.2.rank best.2.rank > 0 := by
              intro hcmp
              exact hlbc ⟨hlb, hcmp⟩
            have := (compare_rank_pos_iff ic.2.rank best.2.rank).not.mp hncmp
            omega
    · have hval : dwp_step trump led best ic = best := by
        simp only [dwp_step, if_neg hnotfirst, if_neg hnotsecond, if_neg hlc]
      rw [hval]
      refine ⟨hmem2, ?_, ?_⟩
      · intro hex
        have hexseen : ∃ c ∈ seen, trump = some c.suit := by
          rcases hex with ⟨c, hc, hct⟩
          rcases List.mem_append.mp hc with hc1 | hc2
          · exact ⟨c, hc1, hct⟩
          · rcases List.mem_singleton.mp hc2 with rfl
            exact absurd hct htc
        refine ⟨(hT hexseen).1, ?_⟩
        intro c hc hct
        rcases List.mem_append.mp hc with hc1 | hc2
        · exact (hT hexseen).2 c hc1 hct
        · rcases List.mem_singleton.mp hc2 with rfl
          exact absurd hct htc
      · intro hno
        have hnoseen : ¬∃ c ∈ seen, trump = some c.suit := by
          intro ⟨c, hc, hct⟩
          exact hno ⟨c, List.mem_append_left _ hc, hct⟩
        obtain ⟨hlb, hbound⟩ := hL hnoseen
        refine ⟨hlb, ?_⟩
        intro c hc hcl
        rcases List.mem_append.mp hc with hc1 | hc2
        · exact hbound c hc1 hcl
        · rcases List.mem_singleton.mp hc2 with rfl
          exact absurd hcl hlc

theorem dwp_fold_invariant (trump led : Option Suit) (l : List (Nat × Card)) :
    ∀ (best : Nat × Card) (seen : List Card),
      best.2 ∈ seen →
      ((∃ c ∈ seen, trump = some c.suit) →
        trump = some best.2.suit ∧
        ∀ c ∈ seen, trump = some c.suit →
          RANK_VALUE c.rank ≤ RANK_VALUE best.2.rank) →
      ((¬∃ c ∈ seen, trump = some c.suit) →
        led = some best.2.suit ∧
        ∀ c ∈ seen, led = some c.suit →
          RANK_VALUE c.rank ≤ RANK_VALUE best.2.rank) →
      ((l.foldl (dwp_step trump led) best).2 ∈ seen ++ l.map Prod.snd) ∧
      ((∃ c ∈ seen ++ l.map Prod.snd, trump = some c.suit) →
        trump = some (l.foldl (dwp_step trump led) best).2.suit ∧
        ∀ c ∈ seen ++ l.map Prod.snd, trump = some c.suit →
          RANK_VALUE c.rank ≤
            RANK_VALUE (l.foldl (dwp_step trump led) best).2.rank) ∧
      ((¬∃ c ∈ seen ++ l.map Prod.snd, trump = some c.suit) →
        led = some (l.foldl (dwp_step trump led) best).2.suit ∧
        ∀ c ∈ seen ++ l.map Prod.snd, led = some c.suit →
          RANK_VALUE c.rank ≤
            RANK_VALUE (l.foldl (dwp_step trump led) best).2.rank) := by
  induction l with
  | nil =>
    intro best seen hmem hT hL
    simp only [List.foldl_nil, List.map_nil, List.append_nil]
    exact ⟨hmem, hT, hL⟩
  | cons x xs ih =>
    intro best seen hmem hT hL
    obtain ⟨m1, t1, l1⟩ := dwp_step_invariant trump led best x seen hmem hT hL
    have hres := ih (dwp_step trump led best x) (seen ++ [x.2]) m1 t1 l1
    rw [List.foldl_cons]
    have happ : (seen ++ [x.2]) ++ xs.map Prod.snd =
        seen ++ (x :: xs).map Prod.snd := by
      simp
    rw [happ] at hres
    exact hres

/-- C4: for every trick whose led suit is the first play's suit (the
maintained invariant), the scan in `determine_winning_play` returns the
index of a highest-ranked trump play when any trump was played, otherwise
of a highest-ranked led-suit play.  (The left-to-right scan rule in the
claim is the definition `dwp_step` itself.) -/
theorem C4_winning_play (trick : TrickState) (trump : Option Suit)
    (p0 : TrickPlay) (rest : List TrickPlay)
    (hplays : trick.plays = p0 :: rest)
    (hled : trick.ledSuit = some p0.card.suit) :
    ∃ i wp, determine_winning_play trick trump = some i ∧
      trick.plays[i]? = some wp ∧
      ((∃ q ∈ trick.plays, trump = some q.card.suit) →
        trump = some wp.card.suit ∧
        ∀ q ∈ trick.plays, trump = some q.card.suit →
          RANK_VALUE q.card.rank ≤ RANK_VALUE wp.card.rank) ∧
      ((¬∃ q ∈ trick.plays, trump = some q.card.suit) →
        wp.card.suit = p0.card.suit ∧
        ∀ q ∈ trick.plays, q.card.suit = p0.card.suit →
          RANK_VALUE q.card.rank ≤ RANK_VALUE wp.card.rank) := by
  have hT0 : (∃ c ∈ [p0.card], trump = some c.suit) →
      trump = some (0, p0.card).2.suit ∧
      ∀ c ∈ [p0.card], trump = some c.suit →
        RANK_VALUE c.rank ≤ RANK_VALUE (0, p0.card).2.rank := by
    rintro ⟨c, hc, hct⟩
    rcases List.mem_singleton.mp hc with rfl
    refine ⟨hct, ?_⟩
    intro c2 hc2 _
    rcases List.mem_singleton.mp hc2 with rfl
    exact le_refl _
  have hL0 : (¬∃ c ∈ [p0.card], trump = some c.suit) →
      some p0.card.suit = some (0, p0.card).2.suit ∧
      ∀ c ∈ [p0.card], some p0.card.suit = some c.suit →
        RANK_VALUE c.rank ≤ RANK_VALUE (0, p0.card).2.rank := by
    intro _
    refine ⟨rfl, ?_⟩
    intro c2 hc2 _
    rcases List.mem_singleton.mp hc2 with rfl
    exact le_refl _
  have hinv := dwp_fold_invariant trump (some p0.card.suit)
    (indexed_cards_from 1 rest) (0, p0.card) [p0.card]
    (List.mem_singleton.mpr rfl) hT0 hL0
  have hmem := foldl_dwp_mem trump (some p0.card.suit)
    (indexed_cards_from 1 rest) (0, p0.card)
  have hdwp : determine_winning_play trick trump =
      some ((indexed_cards_from 1 rest).foldl
        (dwp_step trump (some p0.card.suit)) (0, p0.card)).1 := by
    unfold determine_winning_play
    rw [hplays, hled]
  obtain ⟨hrmem, hrT, hrL⟩ := hinv
  have hmapeq : [p0.card] ++ (indexed_cards_from 1 rest).map Prod.snd =
      (p0 :: rest).map (·.card) := by
    rw [indexed_cards_from_map_snd]
    rfl
  rw [hmapeq] at hrT hrL
  have hex : ∀ P : Card → Prop, (∃ q ∈ p0 :: rest, P q.card) →
      ∃ c ∈ (p0 :: rest).map (·.card), P c := by
    rintro P ⟨q, hq, hPq⟩
    exact ⟨q.card, List.mem_map_of_mem _ hq, hPq⟩
  have hall : ∀ P : Card → Prop, (∀ c ∈ (p0 :: rest).map (·.card), P c) →
      ∀ q ∈ p0 :: rest, P q.card := by
    intro P h q hq
    exact h _ (List.mem_map_of_mem _ hq)
  rcases hmem with hcase | hcase
  · refine ⟨((indexed_cards_from 1 rest).foldl
        (dwp_step trump (some p0.card.suit)) (0, p0.card)).1, p0, hdwp, ?_, ?_, ?_⟩
    · rw [hcase, hplays]
      simp
    · intro hexq
      rw [hplays] at hexq
      obtain ⟨ht1, ht2⟩ := hrT (hex _ hexq)
      rw [hcase] at ht1 ht2
      refine ⟨ht1, ?_⟩
      rw [hplays]
      exact hall _ (fun c hc hct => ht2 c hc hct)
    · intro hnexq
      rw [hplays] at hnexq
      have hnex : ¬∃ c ∈ (p0 :: rest).map (·.card), trump = some c.suit := by
        rintro ⟨c, hc, hct⟩
        obtain ⟨q, hq, rfl⟩ := List.mem_map.mp hc
        exact hnexq ⟨q, hq, hct⟩
      obtain ⟨hl1, hl2⟩ := hrL hnex
      rw [hcase] at hl1 hl2
      refine ⟨(Option.some.inj hl1).symm, ?_⟩
      rw [hplays]
      exact hall
        (fun c => c.suit = p0.card.suit →
          RANK_VALUE c.rank ≤ RANK_VALUE ((0 : Nat), p0.card).2.rank)
        (fun c hc hcl => hl2 c hc (by rw [hcl]))
  · obtain ⟨hn1, q, hq, hqc⟩ := indexed_cards_from_lookup rest 1
      ((indexed_cards_from 1 rest).foldl
        (dwp_step trump (some p0.card.suit)) (0, p0.card)).1
      ((indexed_cards_from 1 rest).foldl
        (dwp_step trump (some p0.card.suit)) (0, p0.card)).2
      (by rw [Prod.mk.eta]; exact hcase)
    refine ⟨((indexed_cards_from 1 rest).foldl
        (dwp_step trump (some p0.card.suit)) (0, p0.card)).1, q, hdwp, ?_, ?_, ?_⟩
    · rw [hplays]
      have hstep : ((indexed_cards_from 1 rest).foldl
          (dwp_step trump (some p0.card.suit)) (0, p0.card)).1 =
          (((indexed_cards_from 1 rest).foldl
            (dwp_step trump (some p0.card.suit)) (0, p0.card)).1 - 1) + 1 := by
        omega
      rw [hstep]
      simpa using hq
    · intro hexq
      rw [hplays] at hexq
      obtain ⟨ht1, ht2⟩ := hrT (hex _ hexq)
      rw [← hqc] at ht1 ht2
      refine ⟨ht1, ?_⟩
      rw [hplays]
      exact hall _ (fun c hc hct => ht2 c hc hct)
    · intro hnexq
      rw [hplays] at hnexq
      have hnex : ¬∃ c ∈ (p0 :: rest).map (·.card), trump = some c.suit := by
        rintro ⟨c, hc, hct⟩
        obtain ⟨q2, hq2, rfl⟩ := List.mem_map.mp hc
        exact hnexq ⟨q2, hq2, hct⟩
      obtain ⟨hl1, hl2⟩ := hrL hnex
      rw [← hqc] at hl1 hl2
      refine ⟨(Option.some.inj hl1).symm, ?_⟩
      rw [hplays]
      exact hall
        (fun c => c.suit = p0.card.suit →
          RANK_VALUE c.rank ≤ RANK_VALUE q.card.rank)
        (fun c hc hcl => hl2 c hc (by rw [hcl]))

/-- Witness for C4: spec scenario S5 (shortened to three plays): hearts
led, spades trump, the lone spade (index 1) wins. -/
theorem C4_witness :
    ∃ i wp, determine_winning_play trick_c4 (some .spades) = some i ∧
      trick_c4.plays[i]? = some wp ∧
      ((∃ q ∈ trick_c4.plays, some Suit.spades = some q.card.suit) →
        some Suit.spades = some wp.card.suit ∧
        ∀ q ∈ trick_c4.plays, some Suit.spades = some q.card.suit →
          RANK_VALUE q.card.rank ≤ RANK_VALUE wp.card.rank) ∧
      ((¬∃ q ∈ trick_c4.plays, some Suit.spades = some q.card.suit) →
        wp.card.suit = cH10.suit ∧
        ∀ q ∈ trick_c4.plays, q.card.suit = cH10.suit →
          RANK_VALUE q.card.rank ≤ RANK_VALUE wp.card.rank) :=
  C4_winning_play trick_c4 (some .spades) ⟨"p1", cH10, 0⟩
    [⟨"p2", ⟨"S-2", .spades, .r2, 0⟩, 1⟩, ⟨"p3", ⟨"H-K", .hearts, .rK, 0⟩, 2⟩]
    rfl rfl

/-! ## Claims C2 and C6: determinizer lemmas -/

theorem find?_eq_of_nodup_keys {β : Type} (l : List (String × β))
    (hk : (l.map Prod.fst).Nodup) (p : String × β) (hp : p ∈ l) :
    l.find? (fun q => decide (q.1 = p.1)) = some p := by
  induction l with
  | nil => cases hp
  | cons a t ih =>
    rw [List.map_cons, List.nodup_cons] at hk
    rcases List.mem_cons.mp hp with rfl | hp2
    · rw [List.find?_cons_of_pos]
      simp
    · have hne : ¬(a.1 = p.1) := by
        intro he
        exact hk.1 (he ▸ List.mem_map_of_mem Prod.fst hp2)
      rw [List.find?_cons_of_neg]
      · exact ih hk.2 hp2
      · simp [hne]

theorem forall₂_mem_right {α β : Type} {R : α → β → Prop} {l₁ : List α}
    {l₂ : List β} (h : List.Forall₂ R l₁ l₂) :
    ∀ q ∈ l₂, ∃ p ∈ l₁, R p q := by
  induction h with
  | nil => intro q hq; cases hq
  | cons hr _ ih =>
    intro q hq
    rcases List.mem_cons.mp hq with rfl | hq2
    · exact ⟨_, List.mem_cons_self _ _, hr⟩
    · obtain ⟨p, hp, hR⟩ := ih q hq2
      exact ⟨p, List.mem_cons_of_mem _ hp, hR⟩

theorem cardsOf_mem (asg : List (String × List Card)) (pid : String)
    (c : Card) (hc : c ∈ cardsOf asg pid) :
    ∃ q ∈ asg, q.1 = pid ∧ c ∈ q.2 := by
  unfold cardsOf at hc
  cases hq : asg.find? (fun q => decide (q.1 = pid)) with
  | none => rw [hq] at hc; cases hc
  | some q =>
    rw [hq] at hc
    have hmem := List.mem_of_find?_eq_some hq
    have hkey := List.find?_some hq
    exact ⟨q, hmem, by simpa using hkey, hc⟩

theorem cardsOf_eq_of_mem (asg : List (String × List Card))
    (hk : (asg.map Prod.fst).Nodup) (pid : String) (cards : List Card)
    (hmem : (pid, cards) ∈ asg) : cardsOf asg pid = cards := by
  unfold cardsOf
  rw [find?_eq_of_nodup_keys asg hk (pid, cards) hmem]

theorem neededOf_eq_of_mem (needed : List (String × Int))
    (hk : (needed.map Prod.fst).Nodup) (pid : String) (v : Int)
    (hmem : (pid, v) ∈ needed) : neededOf needed pid = v := by
  unfold neededOf
  rw [find?_eq_of_nodup_keys needed hk (pid, v) hmem]

theorem allocate_spec (constraints : String → List Suit) :
    ∀ (order : List (String × Int)) (pool : List Card)
      (asg : List (String × List Card)),
      allocate constraints order pool = some asg →
      asg.map Prod.fst = order.map Prod.fst ∧
      List.Forall₂ (fun (p : String × List Card) (q : String × Int) =>
        p.1 = q.1 ∧ p.2.length = q.2.toNat) asg order ∧
      (∀ p ∈ asg, ∀ c ∈ p.2, c ∈ pool ∧ c.suit ∉ constraints p.1) ∧
      ((pool.map Card.id).Nodup →
        asg.Pairwise (fun p q => ∀ c ∈ p.2, ∀ d ∈ q.2, c.id ≠ d.id)) := by
  intro order
  induction order with
  | nil =>
    intro pool asg h
    obtain rfl : asg = [] := by
      simpa [allocate] using h.symm
    refine ⟨rfl, List.Forall₂.nil, ?_, ?_⟩
    · intro p hp; cases hp
    · intro _; exact List.Pairwise.nil
  | cons hd rest ih =>
    intro pool asg h
    obtain ⟨pid, count⟩ := hd
    unfold allocate at h
    by_cases hlt : (pool.filter
        (fun c => decide (c.suit ∉ constraints pid))).length < count.toNat
    · rw [if_pos hlt] at h
      exact Option.noConfusion h
    · rw [if_neg hlt] at h
      dsimp only at h
      cases halloc : allocate constraints rest
          (pool.filter (fun c => decide (c.id ∉
            ((pool.filter (fun c => decide (c.suit ∉ constraints pid))).take
              count.toNat).map Card.id))) with
      | none => rw [halloc] at h; exact Option.noConfusion h
      | some asg2 =>
        rw [halloc] at h
        obtain rfl : (pid, (pool.filter
            (fun c => decide (c.suit ∉ constraints pid))).take count.toNat)
            :: asg2 = asg := by
          simpa using h
        obtain ⟨hmap2, hfa2, hmem2, hpair2⟩ := ih _ asg2 halloc
        have hselsub : ∀ c ∈ (pool.filter
            (fun c => decide (c.suit ∉ constraints pid))).take count.toNat,
            c ∈ pool ∧ c.suit ∉ constraints pid := by
          intro c hc
          have hcf := List.mem_of_mem_take hc
          rw [List.mem_filter] at hcf
          exact ⟨hcf.1, by simpa using hcf.2⟩
        have hpool2sub : ∀ c, c ∈ pool.filter (fun c => decide (c.id ∉
            ((pool.filter (fun c => decide (c.suit ∉ constraints pid))).take
              count.toNat).map Card.id)) → c ∈ pool := by
          intro c hc
          exact (List.mem_filter.mp hc).1
        refine ⟨?_, ?_, ?_, ?_⟩
        · rw [List.map_cons, hmap2, List.map_cons]
        · refine List.Forall₂.cons ⟨rfl, ?_⟩ hfa2
          rw [List.length_take]
          omega
        · intro p hp c hc
          rcases List.mem_cons.mp hp with rfl | hp2
          · exact hselsub c hc
          · obtain ⟨hcp, hcs⟩ := hmem2 p hp2 c hc
            exact ⟨hpool2sub c hcp, hcs⟩
        · intro hnodup
          have hnodup2 : ((pool.filter (fun c => decide (c.id ∉
              ((pool.filter (fun c => decide (c.suit ∉ constraints pid))).take
                count.toNat).map Card.id))).map Card.id).Nodup := by
            exact List.Nodup.sublist
              (List.Sublist.map Card.id (List.filter_sublist pool)) hnodup
          refine List.Pairwise.cons ?_ (hpair2 hnodup2)
          intro q hq c hc d hd
          obtain ⟨hdp, _⟩ := hmem2 q hq d hd
          have hdid := (List.mem_filter.mp hdp).2
          rw [decide_eq_true_eq] at hdid
          intro heq
          exact hdid (heq ▸ List.mem_map_of_mem Card.id hc)

theorem degraded_deal_spec :
    ∀ (needed : List (String × Int)) (pool : List Card),
      (needed.map (fun p => p.2.toNat)).sum ≤ pool.length →
      (degraded_deal needed pool).1.map Prod.fst = needed.map Prod.fst ∧
      List.Forall₂ (fun (p : String × List Card) (q : String × Int) =>
        p.1 = q.1 ∧ p.2.length = q.2.toNat)
        (degraded_deal needed pool).1 needed ∧
      (∀ p ∈ (degraded_deal needed pool).1, ∀ c ∈ p.2, c ∈ pool) ∧
      ((pool.map Card.id).Nodup →
        (degraded_deal needed pool).1.Pairwise
          (fun p q => ∀ c ∈ p.2, ∀ d ∈ q.2, c.id ≠ d.id)) := by
  intro needed
  induction needed with
  | nil =>
    intro pool _
    refine ⟨rfl, List.Forall₂.nil, ?_, ?_⟩
    · intro p hp; cases hp
    · intro _; exact List.Pairwise.nil
  | cons hd rest ih =>
    intro pool hsum
    obtain ⟨pid, count⟩ := hd
    rw [List.map_cons, List.sum_cons] at hsum
    by_cases hpos : count > 0
    · have hk : count.toNat ≤ pool.length := by omega
      unfold degraded_deal
      rw [if_pos hpos]
      dsimp only
      have hp2len : (pool.take (pool.length - count.toNat)).length =
          pool.length - count.toNat := by
        rw [List.length_take]
        omega
      have hsum2 : (rest.map (fun p => p.2.toNat)).sum ≤
          (pool.take (pool.length - count.toNat)).length := by
        omega
      obtain ⟨hmap2, hfa2, hmem2, hpair2⟩ := ih _ hsum2
      refine ⟨?_, ?_, ?_, ?_⟩
      · rw [List.map_cons, List.map_cons, hmap2]
      · refine List.Forall₂.cons ⟨rfl, ?_⟩ hfa2
        rw [List.length_take, List.length_reverse]
        omega
      · intro p hp c hc
        rcases List.mem_cons.mp hp with rfl | hp2
        · exact List.mem_reverse.mp (List.mem_of_mem_take hc)
        · exact List.mem_of_mem_take (hmem2 p hp2 c hc)
      · intro hnodup
        have hnodup2 : ((pool.take (pool.length - count.toNat)).map
            Card.id).Nodup :=
          List.Nodup.sublist
            (List.Sublist.map Card.id (List.take_sublist _ pool)) hnodup
        refine List.Pairwise.cons ?_ (hpair2 hnodup2)
        intro q hq c hc d hd
        have hc2 : c ∈ List.take count.toNat pool.reverse := hc
        have hcdrop : c ∈ pool.drop (pool.length - count.toNat) := by
          rw [List.take_reverse] at hc2
          exact List.mem_reverse.mp hc2
        intro heq
        have hcpool : c ∈ pool := List.mem_reverse.mp (List.mem_of_mem_take hc)
        have hdtake : d ∈ pool.take (pool.length - count.toNat) :=
          hmem2 q hq d hd
        have hdpool : d ∈ pool := List.mem_of_mem_take hdtake
        have hcd : c = d := List.inj_on_of_nodup_map hnodup hcpool hdpool heq
        exact List.disjoint_take_drop (List.Nodup.of_map Card.id hnodup)
          (le_refl _) hdtake (hcd ▸ hcdrop)
    · unfold degraded_deal
      rw [if_neg hpos]
      dsimp only
      have hsum2 : (rest.map (fun p => p.2.toNat)).sum ≤ pool.length := by
        omega
      obtain ⟨hmap2, hfa2, hmem2, hpair2⟩ := ih _ hsum2
      refine ⟨?_, ?_, ?_, ?_⟩
      · rw [List.map_cons, List.map_cons, hmap2]
      · refine List.Forall₂.cons ⟨rfl, ?_⟩ hfa2
        rw [Int.toNat_of_nonpos (by omega)]
        rfl
      · intro p hp c hc
        rcases List.mem_cons.mp hp with rfl | hp2
        · cases hc
        · exact hmem2 p hp2 c hc
      · intro hnodup
        refine List.Pairwise.cons ?_ (hpair2 hnodup)
        intro q hq c hc d hd
        cases hc

theorem determinize_attempts_spec (rng : Nat → List Card → List Card)
    (hrng : ∀ i l, (rng i l).Perm l) (s : GameState)
    (needed order : List (String × Int)) (constraints : String → List Suit)
    (unknown : List Card) :
    ∀ (fuel pos : Nat),
      ∃ pool, pool.Perm unknown ∧
        ((∃ asg, allocate constraints order pool = some asg ∧
            (determinize_attempts rng s needed order constraints unknown
              fuel pos).1 = apply_assignments s needed asg ∧
            (determinize_attempts rng s needed order constraints unknown
              fuel pos).2.2 = false) ∨
         ((determinize_attempts rng s needed order constraints unknown
              fuel pos).1 =
            apply_assignments s needed (degraded_deal needed pool).1 ∧
          (determinize_attempts rng s needed order constraints unknown
              fuel pos).2.2 = true)) := by
  intro fuel
  induction fuel with
  | zero =>
    intro pos
    exact ⟨rng pos unknown, hrng pos unknown, Or.inr ⟨rfl, rfl⟩⟩
  | succ fuel ih =>
    intro pos
    cases halloc : allocate constraints order (rng pos unknown) with
    | some asg =>
      have heq : determinize_attempts rng s needed order constraints unknown
          (fuel + 1) pos = (apply_assignments s needed asg, pos + 1, false) := by
        show (match allocate constraints order (rng pos unknown) with
          | some asg => (apply_assignments s needed asg, pos + 1, false)
          | none => determinize_attempts rng s needed order constraints unknown
              fuel (pos + 1)) =
          (apply_assignments s needed asg, pos + 1, false)
        rw [halloc]
      exact ⟨rng pos unknown, hrng pos unknown,
        Or.inl ⟨asg, halloc, by rw [heq], by rw [heq]⟩⟩
    | none =>
      have heq : determinize_attempts rng s needed order constraints unknown
          (fuel + 1) pos = determinize_attempts rng s needed order constraints
            unknown fuel (pos + 1) := by
        show (match allocate constraints order (rng pos unknown) with
          | some asg => (apply_assignments s needed asg, pos + 1, false)
          | none => determinize_attempts rng s needed order constraints unknown
              fuel (pos + 1)) =
          determinize_attempts rng s needed order constraints unknown fuel
            (pos + 1)
        rw [halloc]
      rw [heq]
      exact ih (pos + 1)

theorem find?_key_map {β γ : Type} (l : List (String × β))
    (g : String × β → γ) (k : String) :
    (l.map (fun p => (p.1, g p))).find? (fun q => decide (q.1 = k)) =
      (l.find? (fun q => decide (q.1 = k))).map (fun p => (p.1, g p)) := by
  induction l with
  | nil => rfl
  | cons a t ih =>
    by_cases h : a.1 = k
    · rw [List.map_cons, List.find?_cons_of_pos _ (by simp [h]),
        List.find?_cons_of_pos _ (by simp [h])]
      rfl
    · rw [List.map_cons, List.find?_cons_of_neg _ (by simp [h]),
        List.find?_cons_of_neg _ (by simp [h]), ih]

theorem neededOf_needed_counts (s : GameState) (rs : RoundState)
    (obs : String) (hkeys : (s.playerStates.map Prod.fst).Nodup)
    (p : String × ServerPlayerState) (hp : p ∈ s.playerStates) :
    neededOf (needed_counts s rs obs) p.1 =
      if p.1 = obs then 0
      else (rs.cardsPerPlayer : Int) - (plays_made rs p.1 : Int) := by
  unfold neededOf needed_counts
  rw [find?_key_map, find?_eq_of_nodup_keys s.playerStates hkeys p hp]
  rfl

theorem map_fst_needed_counts (s : GameState) (rs : RoundState)
    (obs : String) :
    (needed_counts s rs obs).map Prod.fst = s.playerStates.map Prod.fst := by
  unfold needed_counts
  rw [List.map_map]
  rfl

theorem visible_iff (s : GameState) (rs : RoundState) (obs : String)
    (ops : ServerPlayerState) (hrs : s.roundState = some rs)
    (hobs : dictGet s.playerStates obs = some ops) (cid : String) :
    cid ∈ get_visible_cards s obs ↔
      (cid ∈ ops.hand.map Card.id ∨ cid ∈ playedCardIds rs) := by
  unfold get_visible_cards playedCardIds
  rw [hrs, hobs]
  cases htp : rs.trickInProgress <;> simp [htp, or_assoc]

theorem countP_any_eq_sum (tricks : List TrickState) (pid : String)
    (h : ∀ t ∈ tricks,
      (t.plays.filter (fun q => decide (q.playerId = pid))).length ≤ 1) :
    tricks.countP (fun t => t.plays.any (fun q => decide (q.playerId = pid))) =
      (tricks.map (fun t =>
        (t.plays.filter (fun q => decide (q.playerId = pid))).length)).sum := by
  induction tricks with
  | nil => rfl
  | cons t ts ih =>
    rw [List.countP_cons, List.map_cons, List.sum_cons]
    have ht := h t (List.mem_cons_self t ts)
    have hih := ih (fun t2 ht2 => h t2 (List.mem_cons_of_mem t ht2))
    cases hany : t.plays.any (fun q => decide (q.playerId = pid)) with
    | true =>
      obtain ⟨q, hq, hpq⟩ := List.any_eq_true.mp hany
      have hmem : q ∈ t.plays.filter (fun q => decide (q.playerId = pid)) :=
        List.mem_filter.mpr ⟨hq, hpq⟩
      have hge : 0 <
          (t.plays.filter (fun q => decide (q.playerId = pid))).length :=
        List.length_pos.mpr (List.ne_nil_of_mem hmem)
      simp only [hany, if_true]
      omega
    | false =>
      have hnil : t.plays.filter (fun q => decide (q.playerId = pid)) = [] := by
        rw [List.filter_eq_nil_iff]
        intro a ha
        exact List.any_eq_false.mp hany a ha
      simp [hany, hnil, hih]

theorem plays_made_eq_playsTotal (rs : RoundState) (pid : String)
    (honce1 : ∀ t ∈ rs.completedTricks,
      (t.plays.filter (fun q => decide (q.playerId = pid))).length ≤ 1)
    (honce2 : ∀ t, rs.trickInProgress = some t →
      (t.plays.filter (fun q => decide (q.playerId = pid))).length ≤ 1) :
    plays_made rs pid = playsTotal rs pid := by
  unfold plays_made playsTotal
  rw [countP_any_eq_sum rs.completedTricks pid honce1]
  congr 1
  cases htp : rs.trickInProgress with
  | none => rfl
  | some t =>
    have ht := honce2 t htp
    cases hany : t.plays.any (fun q => decide (q.playerId = pid)) with
    | true =>
      obtain ⟨q, hq, hpq⟩ := List.any_eq_true.mp hany
      have hmem : q ∈ t.plays.filter (fun q => decide (q.playerId = pid)) :=
        List.mem_filter.mpr ⟨hq, hpq⟩
      have hge : 0 <
          (t.plays.filter (fun q => decide (q.playerId = pid))).length :=
        List.length_pos.mpr (List.ne_nil_of_mem hmem)
      simp only [hany, if_true]
      omega
    | false =>
      have hnil : t.plays.filter (fun q => decide (q.playerId = pid)) = [] := by
        rw [List.filter_eq_nil_iff]
        intro a ha
        exact List.any_eq_false.mp hany a ha
      simp [hany, hnil]

theorem find?_map_key_preserving {β : Type} (l : List (String × β))
    (f : String × β → String × β) (hf : ∀ p, (f p).1 = p.1) (k : String) :
    (l.map f).find? (fun q => decide (q.1 = k)) =
      (l.find? (fun q => decide (q.1 = k))).map f := by
  induction l with
  | nil => rfl
  | cons a t ih =>
    by_cases h : a.1 = k
    · rw [List.map_cons, List.find?_cons_of_pos _ (by simp [hf, h]),
        List.find?_cons_of_pos _ (by simp [h])]
      rfl
    · rw [List.map_cons, List.find?_cons_of_neg _ (by simp [hf, h]),
        List.find?_cons_of_neg _ (by simp [h]), ih]

set_option maxRecDepth 4000 in
theorem deck_ids_nodup : (generate_standard_deck.map Card.id).Nodup := by
  decide

theorem voids_spec_eq_derive (s : GameState) (rs : RoundState)
    (hrs : s.roundState = some rs) (pid : String) (x : Suit) :
    x ∈ voids_spec rs pid ↔ x ∈ derive_constraints s pid := by
  unfold voids_spec derive_constraints
  rw [hrs]
  simp only [List.mem_filterMap, List.mem_flatten, List.mem_map]
  constructor
  · rintro ⟨t, ht, hx⟩
    refine ⟨_, ⟨t, ht, rfl⟩, ?_⟩
    cases hls : t.ledSuit with
    | none => rw [hls] at hx; exact Option.noConfusion hx
    | some led =>
      rw [hls] at hx
      dsimp only at hx
      cases hcond : t.plays.any (fun p =>
          decide (p.playerId = pid) && decide (p.card.suit ≠ led)) with
      | true =>
        rw [hcond] at hx
        simp only [if_true] at hx
        obtain rfl : led = x := Option.some.inj hx
        simp only [hcond, if_true, List.mem_singleton]
      | false =>
        rw [hcond] at hx
        simp only [Bool.false_eq_true, if_false] at hx
        exact Option.noConfusion hx
  · rintro ⟨l2, ⟨t, ht, rfl⟩, hx⟩
    refine ⟨t, ht, ?_⟩
    cases hls : t.ledSuit with
    | none => rw [hls] at hx; cases hx
    | some led =>
      rw [hls] at hx
      dsimp only at hx
      cases hcond : t.plays.any (fun p =>
          decide (p.playerId = pid) && decide (p.card.suit ≠ led)) with
      | true =>
        rw [hcond] at hx
        simp only [if_true] at hx
        obtain rfl : x = led := List.mem_singleton.mp hx
        simp only [hcond, if_true]
      | false =>
        rw [hcond] at hx
        simp only [Bool.false_eq_true, if_false] at hx
        cases hx

theorem apply_assignments_spec (s : GameState) (rs : RoundState)
    (obs : String) (ops : ServerPlayerState) (asg : List (String × List Card))
    (hrs : s.roundState = some rs)
    (hobs : dictGet s.playerStates obs = some ops)
    (hkeys : (s.playerStates.map Prod.fst).Nodup)
    (hempty : ∀ p ∈ s.playerStates, p.1 ≠ obs → p.2.hand = [])
    (honce1 : ∀ pid : String, ∀ t ∈ rs.completedTricks,
      (t.plays.filter (fun q => decide (q.playerId = pid))).length ≤ 1)
    (honce2 : ∀ (pid : String) (t : TrickState), rs.trickInProgress = some t →
      (t.plays.filter (fun q => decide (q.playerId = pid))).length ≤ 1)
    (hbound : ∀ pid, playsTotal rs pid ≤ rs.cardsPerPlayer)
    (hobsdisj : ∀ c ∈ ops.hand, c.id ∉ playedCardIds rs)
    (hvis : ∀ p ∈ asg, ∀ c ∈ p.2, c.id ∉ get_visible_cards s obs)
    (hpair : asg.Pairwise (fun p q => ∀ c ∈ p.2, ∀ d ∈ q.2, c.id ≠ d.id))
    (hkeysasg : (asg.map Prod.fst).Nodup)
    (hlen : ∀ (pid : String) (v : Int), (pid, v) ∈ needed_counts s rs obs →
      v > 0 → ∃ cards, (pid, cards) ∈ asg ∧ cards.length = v.toNat) :
    dictGet (apply_assignments s (needed_counts s rs obs) asg).playerStates
        obs = some ops ∧
    (∀ p ∈ (apply_assignments s (needed_counts s rs obs) asg).playerStates,
      p.1 ≠ obs → p.2.hand.length = rs.cardsPerPlayer - playsTotal rs p.1) ∧
    (∀ p ∈ (apply_assignments s (needed_counts s rs obs) asg).playerStates,
      ∀ q ∈ (apply_assignments s (needed_counts s rs obs) asg).playerStates,
        p.1 ≠ q.1 → ∀ c ∈ p.2.hand, ∀ d ∈ q.2.hand, c.id ≠ d.id) ∧
    (∀ p ∈ (apply_assignments s (needed_counts s rs obs) asg).playerStates,
      ∀ c ∈ p.2.hand, c.id ∉ playedCardIds rs) := by
  obtain ⟨pobs, hfind, hpkey, hpval⟩ :
      ∃ pobs, s.playerStates.find? (fun q => decide (q.1 = obs)) = some pobs ∧
        pobs.1 = obs ∧ pobs.2 = ops := by
    unfold dictGet at hobs
    cases hfind : s.playerStates.find? (fun q => decide (q.1 = obs)) with
    | none => rw [hfind] at hobs; exact Option.noConfusion hobs
    | some e =>
      rw [hfind] at hobs
      exact ⟨e, rfl, by simpa using List.find?_some hfind, by simpa using hobs⟩
  have hpobsmem : pobs ∈ s.playerStates := List.mem_of_find?_eq_some hfind
  have hps : (apply_assignments s (needed_counts s rs obs) asg).playerStates =
      s.playerStates.map (fun p =>
        if neededOf (needed_counts s rs obs) p.1 > 0 then
          (p.1, { p.2 with hand := cardsOf asg p.1 }) else p) := rfl
  have hfkey : ∀ p : String × ServerPlayerState,
      ((fun p : String × ServerPlayerState =>
        if neededOf (needed_counts s rs obs) p.1 > 0 then
          (p.1, { p.2 with hand := cardsOf asg p.1 }) else p) p).1 = p.1 := by
    intro p
    by_cases h : neededOf (needed_counts s rs obs) p.1 > 0 <;> simp [h]
  have hneedobs : neededOf (needed_counts s rs obs) obs = 0 := by
    have h1 := neededOf_needed_counts s rs obs hkeys pobs hpobsmem
    rw [hpkey] at h1
    simpa using h1
  have hA : dictGet
      (apply_assignments s (needed_counts s rs obs) asg).playerStates obs =
      some ops := by
    unfold dictGet
    rw [hps, find?_map_key_preserving _ _ hfkey, hfind]
    simp [hpkey, hneedobs, hpval]
  have hentry : ∀ p ∈
      (apply_assignments s (needed_counts s rs obs) asg).playerStates,
      ∃ p₀ ∈ s.playerStates, p.1 = p₀.1 ∧
        ((neededOf (needed_counts s rs obs) p₀.1 > 0 ∧
          p.2.hand = cardsOf asg p₀.1) ∨
         (¬neededOf (needed_counts s rs obs) p₀.1 > 0 ∧ p = p₀)) := by
    intro p hp
    rw [hps] at hp
    obtain ⟨p₀, hp₀, hfp⟩ := List.mem_map.mp hp
    refine ⟨p₀, hp₀, ?_, ?_⟩
    · rw [← hfp]
      exact hfkey p₀
    · by_cases h : neededOf (needed_counts s rs obs) p₀.1 > 0
      · left
        refine ⟨h, ?_⟩
        rw [← hfp, if_pos h]
      · right
        refine ⟨h, ?_⟩
        rw [← hfp, if_neg h]
  have hsource : ∀ p ∈
      (apply_assignments s (needed_counts s rs obs) asg).playerStates,
      ∀ c ∈ p.2.hand,
        (∃ e ∈ asg, e.1 = p.1 ∧ c ∈ e.2) ∨ (p.1 = obs ∧ c ∈ ops.hand) := by
    intro p hp c hc
    obtain ⟨p₀, hp₀, hkey, hcase⟩ := hentry p hp
    rcases hcase with ⟨hpos, hhand⟩ | ⟨hneg, hpeq⟩
    · left
      rw [hhand] at hc
      obtain ⟨e, he, hekey, hce⟩ := cardsOf_mem asg p₀.1 c hc
      exact ⟨e, he, by rw [hekey, hkey], hce⟩
    · by_cases hobs0 : p₀.1 = obs
      · right
        have hp0 : p₀ = pobs := by
          have h2 := find?_eq_of_nodup_keys s.playerStates hkeys p₀ hp₀
          rw [hobs0] at h2
          rw [h2] at hfind
          exact Option.some.inj hfind
        refine ⟨by rw [hkey, hobs0], ?_⟩
        rw [hpeq, hp0, hpval] at hc
        exact hc
      · rw [hpeq, hempty p₀ hp₀ hobs0] at hc
        cases hc
  have hC2 : ∀ p ∈
      (apply_assignments s (needed_counts s rs obs) asg).playerStates,
      ∀ c ∈ p.2.hand, c.id ∉ playedCardIds rs := by
    intro p hp c hc hplayed
    rcases hsource p hp c hc with ⟨e, he, -, hce⟩ | ⟨-, hcobs⟩
    · exact hvis e he c hce
        ((visible_iff s rs obs ops hrs hobs c.id).mpr (Or.inr hplayed))
    · exact hobsdisj c hcobs hplayed
  have hC1 : ∀ p ∈
      (apply_assignments s (needed_counts s rs obs) asg).playerStates,
      ∀ q ∈ (apply_assignments s (needed_counts s rs obs) asg).playerStates,
        p.1 ≠ q.1 → ∀ c ∈ p.2.hand, ∀ d ∈ q.2.hand, c.id ≠ d.id := by
    intro p hp q hq hpq c hc d hd
    rcases hsource p hp c hc with ⟨e1, he1, he1k, hce1⟩ | ⟨hpobs1, hcobs⟩
    · rcases hsource q hq d hd with ⟨e2, he2, he2k, hde2⟩ | ⟨hqobs, hdobs⟩
      · have hne : e1 ≠ e2 := by
          intro he
          apply hpq
          rw [← he1k, ← he2k, he]
        have hsymm : Symmetric (fun p q : String × List Card =>
            ∀ c ∈ p.2, ∀ d ∈ q.2, c.id ≠ d.id) := by
          intro a b h c2 hc2 d2 hd2
          exact (h d2 hd2 c2 hc2).symm
        exact hpair.forall hsymm he1 he2 hne c hce1 d hde2
      · intro heq
        apply hvis e1 he1 c hce1
        rw [heq]
        exact (visible_iff s rs obs ops hrs hobs d.id).mpr
          (Or.inl (List.mem_map_of_mem Card.id hdobs))
    · rcases hsource q hq d hd with ⟨e2, he2, he2k, hde2⟩ | ⟨hqobs, hdobs⟩
      · intro heq
        apply hvis e2 he2 d hde2
        rw [← heq]
        exact (visible_iff s rs obs ops hrs hobs c.id).mpr
          (Or.inl (List.mem_map_of_mem Card.id hcobs))
      · exact absurd (hpobs1.trans hqobs.symm) hpq
  have hB : ∀ p ∈
      (apply_assignments s (needed_counts s rs obs) asg).playerStates,
      p.1 ≠ obs → p.2.hand.length = rs.cardsPerPlayer - playsTotal rs p.1 := by
    intro p hp hpne
    obtain ⟨p₀, hp₀, hkey, hcase⟩ := hentry p hp
    have hpne0 : p₀.1 ≠ obs := by
      rw [← hkey]
      exact hpne
    have hval := neededOf_needed_counts s rs obs hkeys p₀ hp₀
    rw [if_neg hpne0] at hval
    have hpm := plays_made_eq_playsTotal rs p₀.1 (honce1 p₀.1)
      (fun t ht => honce2 p₀.1 t ht)
    have hb := hbound p₀.1
    rcases hcase with ⟨hpos, hhand⟩ | ⟨hneg, hpeq⟩
    · have hmemneeded : (p₀.1, (rs.cardsPerPlayer : Int) -
          (plays_made rs p₀.1 : Int)) ∈ needed_counts s rs obs := by
        unfold needed_counts
        refine List.mem_map.mpr ⟨p₀, hp₀, ?_⟩
        rw [if_neg hpne0]
      have hposv : (rs.cardsPerPlayer : Int) - (plays_made rs p₀.1 : Int) > 0 := by
        rw [← hval]
        exact hpos
      obtain ⟨cards, hcmem, hclen⟩ := hlen p₀.1 _ hmemneeded hposv
      have hcof : cardsOf asg p₀.1 = cards :=
        cardsOf_eq_of_mem asg hkeysasg p₀.1 cards hcmem
      rw [hkey, hhand, hcof]
      omega
    · have hnegv : ¬((rs.cardsPerPlayer : Int) -
          (plays_made rs p₀.1 : Int) > 0) := by
        rw [← hval]
        exact hneg
      have hh : p₀.2.hand = [] := hempty p₀ hp₀ hpne0
      rw [hpeq, hh, List.length_nil]
      omega
  exact ⟨hA, hB, hC1, hC2⟩

/-- C2: for every observer-restricted state with a round in progress
(observer present, opponents' hands redacted, consistent play history,
enough unknown cards) and every global RNG stream of permutations,
`determinize` (a) leaves the observer's entry unchanged, (b) gives every
other player exactly `cards_per_player − plays_made` cards, and (c) puts
no card id in two hands or in both a hand and a past play. -/
theorem C2_determinize_hand_invariants
    (rng : Nat → List Card → List Card) (pos : Nat) (s : GameState)
    (obs : String) (rs : RoundState) (ops : ServerPlayerState)
    (hrng : ∀ i l, (rng i l).Perm l)
    (hrs : s.roundState = some rs)
    (hobs : dictGet s.playerStates obs = some ops)
    (hkeys : (s.playerStates.map Prod.fst).Nodup)
    (hempty : ∀ p ∈ s.playerStates, p.1 ≠ obs → p.2.hand = [])
    (honce1 : ∀ pid : String, ∀ t ∈ rs.completedTricks,
      (t.plays.filter (fun q => decide (q.playerId = pid))).length ≤ 1)
    (honce2 : ∀ (pid : String) (t : TrickState), rs.trickInProgress = some t →
      (t.plays.filter (fun q => decide (q.playerId = pid))).length ≤ 1)
    (hbound : ∀ pid, playsTotal rs pid ≤ rs.cardsPerPlayer)
    (hobsdisj : ∀ c ∈ ops.hand, c.id ∉ playedCardIds rs)
    (hpool : ((needed_counts s rs obs).map (fun p => p.2.toNat)).sum ≤
      (generate_standard_deck.filter
        (fun c => decide (c.id ∉ get_visible_cards s obs))).length) :
    dictGet (determinize rng pos s obs).1.playerStates obs = some ops ∧
    (∀ p ∈ (determinize rng pos s obs).1.playerStates, p.1 ≠ obs →
      p.2.hand.length = rs.cardsPerPlayer - playsTotal rs p.1) ∧
    (∀ p ∈ (determinize rng pos s obs).1.playerStates,
      ∀ q ∈ (determinize rng pos s obs).1.playerStates, p.1 ≠ q.1 →
        ∀ c ∈ p.2.hand, ∀ d ∈ q.2.hand, c.id ≠ d.id) ∧
    (∀ p ∈ (determinize rng pos s obs).1.playerStates,
      ∀ c ∈ p.2.hand, c.id ∉ playedCardIds rs) := by
  have hdet : determinize rng pos s obs =
      determinize_attempts rng s (needed_counts s rs obs)
        (stable_sort (fun a b => decide ((derive_constraints s b.1).length ≤
            (derive_constraints s a.1).length))
          ((needed_counts s rs obs).filter (fun p => decide (p.2 > 0))))
        (derive_constraints s)
        (rng pos (generate_standard_deck.filter
          (fun c => decide (c.id ∉ get_visible_cards s obs)))) 50 (pos + 1) := by
    unfold determinize
    rw [hrs]
  have hu0nodup : ((generate_standard_deck.filter
      (fun c => decide (c.id ∉ get_visible_cards s obs))).map Card.id).Nodup :=
    List.Nodup.sublist (List.Sublist.map Card.id (List.filter_sublist _))
      deck_ids_nodup
  obtain ⟨pool, hpoolperm, hcase⟩ := determinize_attempts_spec rng hrng s
    (needed_counts s rs obs)
    (stable_sort (fun a b => decide ((derive_constraints s b.1).length ≤
        (derive_constraints s a.1).length))
      ((needed_counts s rs obs).filter (fun p => decide (p.2 > 0))))
    (derive_constraints s)
    (rng pos (generate_standard_deck.filter
      (fun c => decide (c.id ∉ get_visible_cards s obs)))) 50 (pos + 1)
  have hpoolu0 : pool.Perm (generate_standard_deck.filter
      (fun c => decide (c.id ∉ get_visible_cards s obs))) :=
    hpoolperm.trans (hrng pos _)
  have hpoolnodup : (pool.map Card.id).Nodup :=
    ((hpoolu0.map Card.id).nodup_iff).mpr hu0nodup
  have hpoolvis : ∀ c ∈ pool, c.id ∉ get_visible_cards s obs := by
    intro c hc
    have hm := hpoolu0.mem_iff.mp hc
    have hm2 := (List.mem_filter.mp hm).2
    simpa using hm2
  have hkeysneeded : ((needed_counts s rs obs).map Prod.fst).Nodup := by
    rw [map_fst_needed_counts]
    exact hkeys
  have horderperm := stable_sort_perm
    (fun a b => decide ((derive_constraints s b.1).length ≤
      (derive_constraints s a.1).length))
    ((needed_counts s rs obs).filter (fun p => decide (p.2 > 0)))
  have horderkeys : ((stable_sort
      (fun a b => decide ((derive_constraints s b.1).length ≤
        (derive_constraints s a.1).length))
      ((needed_counts s rs obs).filter (fun p => decide (p.2 > 0)))).map
        Prod.fst).Nodup := by
    have h1 : (((needed_counts s rs obs).filter
        (fun p => decide (p.2 > 0))).map Prod.fst).Nodup :=
      List.Nodup.sublist (List.Sublist.map Prod.fst (List.filter_sublist _))
        hkeysneeded
    exact ((horderperm.map Prod.fst).nodup_iff).mpr h1
  rcases hcase with ⟨asg, halloc, h1, _⟩ | ⟨h1, _⟩
  · obtain ⟨hmapfst, hfa, hmemsub, hpairf⟩ :=
      allocate_spec (derive_constraints s) _ pool asg halloc
    have hkeysasg : (asg.map Prod.fst).Nodup := by
      rw [hmapfst]
      exact horderkeys
    have hvis : ∀ p ∈ asg, ∀ c ∈ p.2, c.id ∉ get_visible_cards s obs :=
      fun p hp c hc => hpoolvis c (hmemsub p hp c hc).1
    have hlen : ∀ (pid : String) (v : Int),
        (pid, v) ∈ needed_counts s rs obs → v > 0 →
        ∃ cards, (pid, cards) ∈ asg ∧ cards.length = v.toNat := by
      intro pid v hmem hv
      have hmemf : (pid, v) ∈ (needed_counts s rs obs).filter
          (fun p => decide (p.2 > 0)) :=
        List.mem_filter.mpr ⟨hmem, by simpa using hv⟩
      have hmemo := horderperm.mem_iff.mpr hmemf
      obtain ⟨p, hp, hkeyeq, hlen2⟩ := forall₂_mem_right hfa (pid, v) hmemo
      have hk2 : p.1 = pid := hkeyeq
      have hpe : (pid, p.2) = p := by
        rw [← hk2]
      exact ⟨p.2, hpe ▸ hp, hlen2⟩
    rw [hdet, h1]
    exact apply_assignments_spec s rs obs ops asg hrs hobs hkeys hempty
      honce1 honce2 hbound hobsdisj hvis (hpairf hpoolnodup) hkeysasg hlen
  · have hsum : ((needed_counts s rs obs).map (fun p => p.2.toNat)).sum ≤
        pool.length := by
      rw [hpoolu0.length_eq]
      exact hpool
    obtain ⟨hmapfst, hfa, hmemsub, hpairf⟩ :=
      degraded_deal_spec (needed_counts s rs obs) pool hsum
    have hkeysasg : ((degraded_deal (needed_counts s rs obs) pool).1.map
        Prod.fst).Nodup := by
      rw [hmapfst]
      exact hkeysneeded
    have hvis : ∀ p ∈ (degraded_deal (needed_counts s rs obs) pool).1,
        ∀ c ∈ p.2, c.id ∉ get_visible_cards s obs :=
      fun p hp c hc => hpoolvis c (hmemsub p hp c hc)
    have hlen : ∀ (pid : String) (v : Int),
        (pid, v) ∈ needed_counts s rs obs → v > 0 →
        ∃ cards, (pid, cards) ∈
          (degraded_deal (needed_counts s rs obs) pool).1 ∧
          cards.length = v.toNat := by
      intro pid v hmem _
      obtain ⟨p, hp, hkeyeq, hlen2⟩ := forall₂_mem_right hfa (pid, v) hmem
      have hk2 : p.1 = pid := hkeyeq
      have hpe : (pid, p.2) = p := by
        rw [← hk2]
      exact ⟨p.2, hpe ▸ hp, hlen2⟩
    rw [hdet, h1]
    exact apply_assignments_spec s rs obs ops _ hrs hobs hkeys hempty
      honce1 honce2 hbound hobsdisj hvis (hpairf hpoolnodup) hkeysasg hlen

set_option maxRecDepth 10000 in
/-- Witness for C2: the two-player one-card fixture under the identity
shuffle stream. -/
theorem C2_witness :
    dictGet (determinize idRng 0 s_det "p1").1.playerStates "p1" =
      some (mkPS "p1" [d0c2] 0) ∧
    (∀ p ∈ (determinize idRng 0 s_det "p1").1.playerStates, p.1 ≠ "p1" →
      p.2.hand.length = rs_det.cardsPerPlayer - playsTotal rs_det p.1) ∧
    (∀ p ∈ (determinize idRng 0 s_det "p1").1.playerStates,
      ∀ q ∈ (determinize idRng 0 s_det "p1").1.playerStates, p.1 ≠ q.1 →
        ∀ c ∈ p.2.hand, ∀ d ∈ q.2.hand, c.id ≠ d.id) ∧
    (∀ p ∈ (determinize idRng 0 s_det "p1").1.playerStates,
      ∀ c ∈ p.2.hand, c.id ∉ playedCardIds rs_det) :=
  C2_determinize_hand_invariants idRng 0 s_det "p1" rs_det (mkPS "p1" [d0c2] 0)
    (fun _ l => List.Perm.refl l) rfl (by decide) (by decide) (by decide)
    (fun _ t ht => absurd ht (List.not_mem_nil t))
    (by
      intro pid t ht
      obtain rfl : trick_det = t := Option.some.inj ht
      simp [trick_det])
    (by
      intro pid
      simp [playsTotal, rs_det, trick_det])
    (by decide) (by decide)

/-- C6: whenever `determinize` succeeds without falling back to the
degraded deal, every opponent's sampled hand contains no card of a suit
the opponent is void in (the led suits of completed tricks in which the
opponent failed to follow). -/
theorem C6_determinize_respects_voids
    (rng : Nat → List Card → List Card) (pos : Nat) (s : GameState)
    (obs : String) (rs : RoundState)
    (hrng : ∀ i l, (rng i l).Perm l)
    (hrs : s.roundState = some rs)
    (hempty : ∀ p ∈ s.playerStates, p.1 ≠ obs → p.2.hand = [])
    (hdeg : (determinize rng pos s obs).2.2 = false) :
    ∀ p ∈ (determinize rng pos s obs).1.playerStates, p.1 ≠ obs →
      ∀ c ∈ p.2.hand, c.suit ∉ voids_spec rs p.1 := by
  have hdet : determinize rng pos s obs =
      determinize_attempts rng s (needed_counts s rs obs)
        (stable_sort (fun a b => decide ((derive_constraints s b.1).length ≤
            (derive_constraints s a.1).length))
          ((needed_counts s rs obs).filter (fun p => decide (p.2 > 0))))
        (derive_constraints s)
        (rng pos (generate_standard_deck.filter
          (fun c => decide (c.id ∉ get_visible_cards s obs)))) 50 (pos + 1) := by
    unfold determinize
    rw [hrs]
  obtain ⟨pool, hpoolperm, hcase⟩ := determinize_attempts_spec rng hrng s
    (needed_counts s rs obs)
    (stable_sort (fun a b => decide ((derive_constraints s b.1).length ≤
        (derive_constraints s a.1).length))
      ((needed_counts s rs obs).filter (fun p => decide (p.2 > 0))))
    (derive_constraints s)
    (rng pos (generate_standard_deck.filter
      (fun c => decide (c.id ∉ get_visible_cards s obs)))) 50 (pos + 1)
  rcases hcase with ⟨asg, halloc, h1, _⟩ | ⟨_, hflag⟩
  · obtain ⟨-, -, hmemsub, -⟩ :=
      allocate_spec (derive_constraints s) _ pool asg halloc
    intro p hp hpne c hc hvoid
    rw [hdet, h1] at hp
    obtain ⟨p₀, hp₀, hfp⟩ := List.mem_map.mp hp
    by_cases hpos : neededOf (needed_counts s rs obs) p₀.1 > 0
    · have hhand : p.2.hand = cardsOf asg p₀.1 := by
        rw [← hfp, if_pos hpos]
      have hkey : p.1 = p₀.1 := by
        rw [← hfp, if_pos hpos]
      rw [hhand] at hc
      obtain ⟨e, he, hekey, hce⟩ := cardsOf_mem asg p₀.1 c hc
      apply (hmemsub e he c hce).2
      rw [hekey, ← hkey]
      exact (voids_spec_eq_derive s rs hrs p.1 c.suit).mp hvoid
    · have hpeq : p = p₀ := by
        rw [← hfp, if_neg hpos]
      rw [hpeq] at hc hpne
      rw [hempty p₀ hp₀ hpne] at hc
      cases hc
  · rw [hdet, hflag] at hdeg
    exact Bool.noConfusion hdeg

set_option maxRecDepth 10000 in
/-- Witness for C6: the fixture determinization does not degrade and the
sampled hand respects the (empty) void sets. -/
theorem C6_witness :
    (determinize idRng 0 s_det "p1").2.2 = false ∧
    (∀ p ∈ (determinize idRng 0 s_det "p1").1.playerStates, p.1 ≠ "p1" →
      ∀ c ∈ p.2.hand, c.suit ∉ voids_spec rs_det p.1) :=
  ⟨by decide,
   C6_determinize_respects_voids idRng 0 s_det "p1" rs_det
    (fun _ l => List.Perm.refl l) rfl (by decide) (by decide)⟩
